import Mathlib

/-!
# Verification development for the word-guessing game server

A shallow embedding of `luxinos/c/src/protocol.h`, `game.h` and `server.c`.

Conventions of the embedding.

* Target: LP64, little-endian (`sizeof(size_t) = 8`, `sizeof(int) = 4`), so
  `sizeof(pl_message) = 8 + 8 + 4 + 1028 = 1048` and `sizeof(ge_game) = 80`,
  both without padding.
* A byte is a `Nat`; a `size_t` is a `Nat` reduced modulo `2 ^ 64` where the C
  arithmetic can wrap.
* A C array is a `List` of the array's declared size; an access outside the
  array is undefined behaviour and makes the enclosing function return `none`.
* A pointer into an array is the index of the element.
* Calls that produce output (`pl_poll_msg_write`, `close`) are recorded, in
  program order, as a list of `io_event`. The server never looks at the result
  of a write, so the recorded call determines everything that follows.
-/

set_option linter.dupNamespace false
set_option maxRecDepth 100000

namespace Dead

/-! ## protocol.h -/

/-- Message kinds, the values of the C enum `pl_message_kind`. -/
def mk_exit : Nat := 0
def mk_enter_passwd : Nat := 1
def mk_wrong_passwd : Nat := 2
def mk_assign_uid : Nat := 3
def mk_show_opponents : Nat := 4
def mk_select_opponent : Nat := 5
def mk_ask_opponent : Nat := 6
def mk_guess : Nat := 7
def mk_wrong_guess : Nat := 8
def mk_hint : Nat := 9
def mk_correct_guess : Nat := 10

def PL_RAW_BYTES_SIZE : Nat := 1024

def PL_NO_TIMEOUT : Int := -1

def PL_DEFAULT_TIMEOUT : Int := 5000

/-- The number of values of a `size_t`. -/
def SIZE_MOD : Nat := 2 ^ 64

/-- The value of `sizeof(size_t)`. -/
def sizeof_size_t : Nat := 8

/-- The C expression `x - 1` on a `size_t`. -/
def size_pred (x : Nat) : Nat := (x + SIZE_MOD - 1) % SIZE_MOD

/-- The struct `pl_message`; `raw_bytes` is the array `char[PL_RAW_BYTES_SIZE + 4]`. -/
structure pl_message where
  id : Nat
  raw_bytes_len : Nat
  kind : Nat
  raw_bytes : List Nat
deriving DecidableEq

/-- The value of `sizeof(pl_message)`. -/
def sizeof_pl_message : Nat := 8 + 8 + 4 + (PL_RAW_BYTES_SIZE + 4)

/-- The `n` little-endian bytes that store the integer `v`. -/
def le_bytes : Nat → Nat → List Nat
  | 0, _ => []
  | n + 1, v => v % 256 :: le_bytes n (v / 256)

/-- The integer stored in little-endian bytes. -/
def le_value : List Nat → Nat
  | [] => 0
  | b :: bs => b + 256 * le_value bs

/-- The `sizeof(pl_message)` bytes of a `pl_message` object. -/
def pl_message.to_bytes (m : pl_message) : List Nat :=
  le_bytes 8 m.id ++ le_bytes 8 m.raw_bytes_len ++ le_bytes 4 m.kind ++ m.raw_bytes

/-- The `pl_message` object held by `sizeof(pl_message)` bytes. -/
def pl_message.of_bytes (b : List Nat) : pl_message :=
  ⟨le_value (b.take 8), le_value ((b.drop 8).take 8), le_value ((b.drop 16).take 4),
    (b.drop 20).take (PL_RAW_BYTES_SIZE + 4)⟩

/-- The array `raw_bytes` after `bzero`. -/
def zero_raw_bytes : List Nat := List.replicate (PL_RAW_BYTES_SIZE + 4) 0

/-- A compound literal `(pl_message){.id = id, .kind = kind, .raw_bytes_len = len}`. -/
def pl_message.lit (id kind len : Nat) : pl_message := ⟨id, len, kind, zero_raw_bytes⟩

/-- The function `pl_msg_write`: the frame it hands to `st_write`, that is the
bytes of `pl_msg_buf` after it has been zeroed and filled from `m` and `bytes`.
`bytes` is the object the pointer argument points to. `none` when the `memcpy`
reads past `bytes` or writes past `raw_bytes`. -/
def pl_msg_write (bytes : List Nat) (m : pl_message) : Option (List Nat) :=
  let len := m.raw_bytes_len % SIZE_MOD
  if 0 < len then
    if len ≤ bytes.length ∧ len ≤ PL_RAW_BYTES_SIZE + 4 then
      some (pl_message.to_bytes
        ⟨m.id % SIZE_MOD, len, m.kind, bytes.take len ++ zero_raw_bytes.drop len⟩)
    else none
  else some (pl_message.to_bytes ⟨m.id % SIZE_MOD, len, m.kind, zero_raw_bytes⟩)

/-- The outcome of `st_read(fd, &pl_msg_buf, sizeof(pl_message))`: a negative
return value, or a return value `bytes.length ≥ 0` after storing `bytes` at the
start of the buffer. -/
inductive read_result where
  | error : read_result
  | data (bytes : List Nat) : read_result
deriving DecidableEq

/-- The function `pl_msg_read`: `none` is `NULL`, otherwise the contents of
`pl_msg_buf`, which was zeroed before the read. -/
def pl_msg_read : read_result → Option pl_message
  | read_result.error => none
  | read_result.data bs =>
    some (pl_message.of_bytes
      ((bs ++ List.replicate (sizeof_pl_message - bs.length) 0).take sizeof_pl_message))

/-- The function `pl_poll_msg_read`; `poll` is the result of `st_single_poll`. -/
def pl_poll_msg_read (poll : Int) (r : read_result) : Option pl_message :=
  if poll ≤ 0 then none else pl_msg_read r

/-- Output calls of the server, in program order. -/
inductive io_event where
  | poll_msg_write (fd : Int) (bytes : List Nat) (m : pl_message) (timeout : Int) : io_event
  | close (fd : Int) : io_event
deriving DecidableEq

/-- The payload a `pl_poll_msg_write` call puts on the wire when the write
happens: the first `raw_bytes_len` bytes of `bytes`. -/
def payload (bytes : List Nat) (m : pl_message) : List Nat := bytes.take m.raw_bytes_len

/-- The C function `strlen` on the object `s`; `none` when no terminator is found in `s`. -/
def strlen : List Nat → Option Nat
  | [] => none
  | c :: cs => if c = 0 then some 0 else (strlen cs).map (· + 1)

/-- The C function `strncmp` on the objects `a` and `b`; `none` when it would
read past the end of one of them. -/
def strncmp : List Nat → List Nat → Nat → Option Int
  | _, _, 0 => some 0
  | a :: as, b :: bs, n + 1 =>
    if a ≠ b then some ((a : Int) - (b : Int))
    else if a = 0 then some 0
    else strncmp as bs n
  | _, _, _ + 1 => none

/-- The C function `strcmp` on the objects `a` and `b`; `none` when it would
read past the end of one of them. -/
def strcmp : List Nat → List Nat → Option Int
  | a :: as, b :: bs =>
    if a ≠ b then some ((a : Int) - (b : Int))
    else if a = 0 then some 0
    else strcmp as bs
  | _, _ => none

/-! ## game.h -/

/-- The struct `ge_game`; `word` is the array `char[55]`. -/
structure ge_game where
  id : Nat
  guesser : Nat
  chooser : Nat
  finished : Bool
  word : List Nat
deriving DecidableEq

/-- The value of `sizeof(ge_game)`. -/
def sizeof_ge_game : Nat := 8 + 8 + 8 + 1 + 55

/-- The `sizeof(ge_game)` bytes of a `ge_game` object. -/
def ge_game.to_bytes (g : ge_game) : List Nat :=
  le_bytes 8 g.id ++ le_bytes 8 g.guesser ++ le_bytes 8 g.chooser
    ++ [if g.finished then 1 else 0] ++ g.word

/-- The function `ge_game_from_msg`, followed by the load of the object it
points to: the first `sizeof(ge_game)` bytes of `raw_bytes` read as a `ge_game`.
A non-zero byte in the place of the `bool` reads as `true`. -/
def ge_game_from_msg (m : pl_message) : ge_game :=
  let b := m.raw_bytes
  ⟨le_value (b.take 8), le_value ((b.drop 8).take 8), le_value ((b.drop 16).take 8),
    decide (b.getD 24 0 ≠ 0), (b.drop 25).take 55⟩

/-! ## server.c -/

def MAX_CLIENTS : Nat := 10

/-- The struct `user`. -/
structure user where
  id : Nat
  fd : Int
  finished_game : Bool
deriving DecidableEq

/-- The struct `users`: the array `user[MAX_CLIENTS]` and the count. -/
structure users where
  users : List user
  len : Nat
deriving DecidableEq

/-- The struct `games`: the array `ge_game[MAX_CLIENTS]` and the count. -/
structure games where
  games : List ge_game
  len : Nat
deriving DecidableEq

/-- The struct `pollfd` of `poll.h`. -/
structure pollfd where
  fd : Int
  events : Nat
  revents : Nat
deriving DecidableEq

/-- The struct `pollfds`: the array `pollfd[MAX_CLIENTS + 1]` and the count. -/
structure pollfds where
  pfds : List pollfd
  len : Nat
deriving DecidableEq

def POLLIN : Nat := 1

/-- The static variables of `server.c`. -/
structure server where
  serverfd : Int
  sr_games : games
  sr_users : users
  sr_pfds : pollfds
deriving DecidableEq

/-- The loop of `find_game` over the stored games from index `i` on. -/
def find_game_loop (id : Nat) : List ge_game → Nat → Option Nat
  | [], _ => none
  | g :: rest, i =>
    if g.finished then find_game_loop id rest (i + 1)
    else if g.guesser = id ∨ g.chooser = id then some i
    else find_game_loop id rest (i + 1)

/-- The function `find_game`: the index of the game it returns a pointer to,
`none` for `NULL`. -/
def find_game (gs : games) (id : Nat) : Option Nat :=
  find_game_loop id (gs.games.take gs.len) 0

/-- The function `is_in_game`. -/
def is_in_game (s : server) (id : Nat) : Bool := (find_game s.sr_games id).isSome

/-- The function `is_finished`; `none` when `id - 1` is outside the array. -/
def is_finished (s : server) (id : Nat) : Option Bool :=
  (s.sr_users.users[size_pred id]?).map (fun u => u.finished_game)

/-- The first loop of `announce_opponents` over the stored users: the ids put
into `opps`, in order. -/
def find_opps (s : server) : List user → Option (List Nat)
  | [] => some []
  | u :: rest =>
    if is_in_game s u.id then find_opps s rest
    else
      match is_finished s u.id with
      | none => none
      | some true => find_opps s rest
      | some false => (find_opps s rest).map (fun l => u.id :: l)

/-- The bytes of the array `size_t opps[MAX_CLIENTS]` holding `opps` followed by zeros. -/
def opps_bytes (opps : List Nat) : List Nat :=
  ((opps ++ List.replicate (MAX_CLIENTS - opps.length) 0).map (le_bytes 8)).flatten

/-- The second loop of `announce_opponents` over the entries `l` of `opps`;
`all` is the whole of `opps`. -/
def announce_loop (s : server) (all : List Nat) : List Nat → Option (List io_event)
  | [] => some []
  | o :: rest =>
    match s.sr_users.users[size_pred o]? with
    | none => none
    | some u =>
      (announce_loop s all rest).map (fun evs =>
        io_event.poll_msg_write u.fd (opps_bytes all)
          (pl_message.lit o mk_show_opponents ((sizeof_size_t * all.length) % SIZE_MOD))
          PL_DEFAULT_TIMEOUT :: evs)

/-- The function `announce_opponents`. -/
def announce_opponents (s : server) : Option (List io_event) :=
  match find_opps s (s.sr_users.users.take s.sr_users.len) with
  | none => none
  | some opps => if opps.length ≤ 1 then some [] else announce_loop s opps opps

/-- The function `poll_new_users`: the array is zeroed, then the listening
socket (unless `limit_reached`) and every user that has not finished are
stored from index 0 on. `none` when an entry falls outside the array. -/
def poll_new_users (s : server) (limit_reached : Bool) : Option server :=
  let listening : List pollfd := if limit_reached then [] else [⟨s.serverfd, POLLIN, 0⟩]
  let live : List pollfd :=
    ((s.sr_users.users.take s.sr_users.len).filter (fun u => !u.finished_game)).map
      (fun u => ⟨u.fd, POLLIN, 0⟩)
  let entries := listening ++ live
  if entries.length ≤ MAX_CLIENTS + 1 then
    some { s with sr_pfds :=
      ⟨entries ++ List.replicate (MAX_CLIENTS + 1 - entries.length) ⟨0, 0, 0⟩, entries.length⟩ }
  else none

/-- The function `authenticate`. `pass` is the object `args.pass` points to,
`poll` and `r` are the results of the poll and of the read with which the
server waits for the answer. -/
def authenticate (s : server) (fd : Int) (pass : List Nat) (poll : Int) (r : read_result) :
    Option (server × List io_event) :=
  let ask := io_event.poll_msg_write fd [0] (pl_message.lit 0 mk_enter_passwd 0) PL_DEFAULT_TIMEOUT
  let reject : Option (server × List io_event) :=
    some (s, [ask,
      io_event.poll_msg_write fd [0] (pl_message.lit 0 mk_wrong_passwd 0) PL_DEFAULT_TIMEOUT,
      io_event.close fd])
  match pl_poll_msg_read poll r with
  | none => reject
  | some read =>
    match strlen pass with
    | none => none
    | some n =>
      if read.raw_bytes_len ≠ n then reject
      else
        match strncmp pass read.raw_bytes n with
        | none => none
        | some c =>
          if c ≠ 0 then reject
          else
            let user_id := (s.sr_users.len + 1) % SIZE_MOD
            if s.sr_users.len < s.sr_users.users.length then
              let s1 : server := { s with sr_users :=
                ⟨s.sr_users.users.set s.sr_users.len ⟨user_id, fd, false⟩,
                  (s.sr_users.len + 1) % SIZE_MOD⟩ }
              let assign := io_event.poll_msg_write fd [0]
                (pl_message.lit user_id mk_assign_uid 0) PL_DEFAULT_TIMEOUT
              match poll_new_users s1 false with
              | none => none
              | some s2 =>
                match announce_opponents s2 with
                | none => none
                | some evs => some (s2, ask :: assign :: evs)
            else none

/-- The function `send_game_msg`; `bytes` is the object the pointer argument points to. -/
def send_game_msg (s : server) (game : ge_game) (kind : Nat) (bytes : List Nat) (len : Nat) :
    Option (List io_event) :=
  match s.sr_users.users[size_pred game.guesser]?,
      s.sr_users.users[size_pred game.chooser]? with
  | some g, some c =>
    some [io_event.poll_msg_write g.fd bytes (pl_message.lit game.guesser kind len)
            PL_DEFAULT_TIMEOUT,
          io_event.poll_msg_write c.fd bytes (pl_message.lit game.chooser kind len)
            PL_DEFAULT_TIMEOUT]
  | _, _ => none

/-- The array `word` after `bzero`. -/
def zero_word : List Nat := List.replicate 55 0

/-- The case `mk_select_opponent` of the switch in `main`. -/
def case_select_opponent (s : server) (m : pl_message) : Option (server × List io_event) :=
  if s.sr_games.len < s.sr_games.games.length then
    let game : ge_game := { ge_game_from_msg m with id := s.sr_games.len }
    let s1 : server := { s with sr_games :=
      ⟨s.sr_games.games.set s.sr_games.len game, (s.sr_games.len + 1) % SIZE_MOD⟩ }
    if (game.chooser ≠ m.id ∧ game.guesser ≠ m.id) ∨ game.finished = true then some (s1, [])
    else
      let game_without_word : ge_game := { game with word := zero_word }
      (send_game_msg s1 game mk_select_opponent game_without_word.to_bytes
        sizeof_ge_game).map (fun evs => (s1, evs))
  else none

/-- The case `mk_guess` of the switch in `main`. -/
def case_guess (s : server) (m : pl_message) : Option (server × List io_event) :=
  let game := ge_game_from_msg m
  match s.sr_games.games[game.id]? with
  | none => none
  | some game_in_proc =>
    match strcmp game.word game_in_proc.word with
    | none => none
    | some c =>
      if c ≠ 0 then
        (send_game_msg s game mk_wrong_guess game.to_bytes sizeof_ge_game).map
          (fun evs => (s, evs))
      else (send_game_msg s game mk_correct_guess [] 0).map (fun evs => (s, evs))

/-- The case `mk_hint` of the switch in `main`. -/
def case_hint (s : server) (m : pl_message) : Option (server × List io_event) :=
  let game := ge_game_from_msg m
  match s.sr_users.users[size_pred game.guesser]? with
  | none => none
  | some u =>
    some (s, [io_event.poll_msg_write u.fd game.to_bytes
      (pl_message.lit game.guesser mk_hint sizeof_ge_game) PL_DEFAULT_TIMEOUT])

/-- The games after `user_game->finished = true` for the game `find_game(id)` returns, if any. -/
def finish_game (gs : games) (id : Nat) : games :=
  match find_game gs id with
  | none => gs
  | some k => ⟨gs.games.modify (fun g => { g with finished := true }) k, gs.len⟩

/-- The case `mk_exit` of the switch in `main`. -/
def case_exit (s : server) (m : pl_message) : Option (server × List io_event) :=
  match s.sr_users.users[size_pred m.id]? with
  | none => none
  | some u =>
    let us : users :=
      ⟨s.sr_users.users.set (size_pred m.id) { u with finished_game := true }, s.sr_users.len⟩
    some ({ s with sr_users := us, sr_games := finish_game s.sr_games m.id },
      [io_event.close u.fd])

/-- The body of the dispatch loop of `main` for one message `m` returned by
`pl_msg_read`: the `switch (m->kind)`. -/
def dispatch (s : server) (m : pl_message) : Option (server × List io_event) :=
  if m.kind = mk_select_opponent then case_select_opponent s m
  else if m.kind = mk_guess then case_guess s m
  else if m.kind = mk_hint then case_hint s m
  else if m.kind = mk_exit then case_exit s m
  else some (s, [])

/-- What the environment hands to the server at one point of the loop of `main`. -/
inductive input where
  | accepted (fd : Int) (poll : Int) (r : read_result) : input
  | readable (r : read_result) : input
deriving DecidableEq

/-- The body of the accept loop of `main` when `st_accept` returns `fd`; `poll`
and `r` are the answers of the new connection during `authenticate`. -/
def accept_step (pass : List Nat) (s : server) (fd : Int) (poll : Int) (r : read_result) :
    Option (server × List io_event) :=
  if s.sr_users.len < MAX_CLIENTS then
    if fd > 0 then authenticate s fd pass poll r else some (s, [])
  else (poll_new_users s true).map (fun s1 => (s1, []))

/-- The body of the dispatch loop of `main` for a ready descriptor whose read gives `r`. -/
def read_step (s : server) (r : read_result) : Option (server × List io_event) :=
  match pl_msg_read r with
  | none => some (s, [])
  | some m => dispatch s m

/-- One step of the server on one input. -/
def step (pass : List Nat) (s : server) : input → Option (server × List io_event)
  | input.accepted fd poll r => accept_step pass s fd poll r
  | input.readable r => read_step s r

/-- The server on a sequence of inputs: the final state and all output calls. -/
def run (pass : List Nat) : server → List input → Option (server × List io_event)
  | s, [] => some (s, [])
  | s, i :: rest =>
    match step pass s i with
    | none => none
    | some (s1, e1) =>
      match run pass s1 rest with
      | none => none
      | some (s2, e2) => some (s2, e1 ++ e2)

/-- The state of the server when `main` enters its loop: both registries
zeroed and empty, and `poll_new_users(false)` done. -/
def server_init (serverfd : Int) : server :=
  ⟨serverfd,
    ⟨List.replicate MAX_CLIENTS ⟨0, 0, 0, false, zero_word⟩, 0⟩,
    ⟨List.replicate MAX_CLIENTS ⟨0, 0, false⟩, 0⟩,
    ⟨⟨serverfd, POLLIN, 0⟩ :: List.replicate MAX_CLIENTS ⟨0, 0, 0⟩, 1⟩⟩

/-- What the environment answers during one iteration of the loop of `main`:
the `revents` that `poll` stores into the entries of `sr_pfds`, the connections
that `st_accept` returns one after the other (descriptor, then the results of
the poll and of the read during `authenticate`; after the last one `st_accept`
returns -1), and for every index of `sr_pfds` the result of a read on its
descriptor. -/
structure iteration where
  revents : List Nat
  accepts : List (Int × Int × read_result)
  reads : List read_result

/-- The call `poll(sr_pfds.pfds, sr_pfds.len, PL_NO_TIMEOUT)`: the first `n`
entries get their `revents` from the environment. -/
def store_revents : Nat → List pollfd → List Nat → List pollfd
  | 0, pfds, _ => pfds
  | _ + 1, [], _ => []
  | n + 1, p :: ps, rs => { p with revents := rs.headD 0 } :: store_revents n ps rs.tail

/-- The accept loop of `main`, entered when the listening socket is ready. -/
def accept_loop (pass : List Nat) : server → List (Int × Int × read_result) →
    Option (server × List io_event)
  | s, [] => accept_step pass s (-1) 0 read_result.error
  | s, (fd, poll, r) :: rest =>
    match accept_step pass s fd poll r with
    | none => none
    | some (s1, e1) =>
      if s.sr_users.len < MAX_CLIENTS ∧ fd > 0 then
        match accept_loop pass s1 rest with
        | none => none
        | some (s2, e2) => some (s2, e1 ++ e2)
      else some (s1, e1)

/-- The dispatch loop of `main` over the entries `sr_pfds.pfds[i]`, `i + 1`, ...
given as a list. -/
def dispatch_loop (reads : List read_result) : List pollfd → Nat → server →
    Option (server × List io_event)
  | [], _, s => some (s, [])
  | p :: rest, i, s =>
    if p.revents ≠ p.events then dispatch_loop reads rest (i + 1) s
    else
      match read_step s (reads.getD i read_result.error) with
      | none => none
      | some (s1, e1) =>
        match dispatch_loop reads rest (i + 1) s1 with
        | none => none
        | some (s2, e2) => some (s2, e1 ++ e2)

/-- One iteration of the loop of `main`: the poll, the accept loop when the
registry has room and `sr_pfds.pfds[0]` is ready, then the dispatch loop over
`sr_pfds.pfds[1]`, ..., `sr_pfds.pfds[sr_pfds.len - 1]`. -/
def main_iteration (pass : List Nat) (s : server) (env : iteration) :
    Option (server × List io_event) :=
  let s0 : server := { s with sr_pfds :=
    ⟨store_revents s.sr_pfds.len s.sr_pfds.pfds env.revents, s.sr_pfds.len⟩ }
  let accepted : Option (server × List io_event) :=
    if s0.sr_users.len < MAX_CLIENTS then
      match s0.sr_pfds.pfds[0]? with
      | none => none
      | some p => if p.revents = p.events then accept_loop pass s0 env.accepts else some (s0, [])
    else some (s0, [])
  match accepted with
  | none => none
  | some (s1, e1) =>
    match dispatch_loop env.reads ((s1.sr_pfds.pfds.take s1.sr_pfds.len).drop 1) 1 s1 with
    | none => none
    | some (s2, e2) => some (s2, e1 ++ e2)

/-- Finitely many iterations of the loop of `main`: the final state and all output calls. -/
def main_loop (pass : List Nat) : server → List iteration → Option (server × List io_event)
  | s, [] => some (s, [])
  | s, env :: rest =>
    match main_iteration pass s env with
    | none => none
    | some (s1, e1) =>
      match main_loop pass s1 rest with
      | none => none
      | some (s2, e2) => some (s2, e1 ++ e2)

/-! ## Notions used to state the properties -/

/-- Representation invariant of the user registry: the array has `MAX_CLIENTS`
slots, at most `MAX_CLIENTS` of them are in use, and the user stored in slot
`i` has id `i + 1`. -/
def users_wf (us : users) : Prop :=
  us.users.length = MAX_CLIENTS ∧ us.len ≤ MAX_CLIENTS ∧
    ∀ i, i < us.len → (us.users[i]?).map (fun u => u.id) = some (i + 1)

instance (us : users) : Decidable (users_wf us) := by
  unfold users_wf
  infer_instance

/-- The call `pl_poll_msg_write(fd, "", (pl_message){.id = id, .kind = kind}, PL_DEFAULT_TIMEOUT)`. -/
def empty_msg_write (fd : Int) (id kind : Nat) : io_event :=
  io_event.poll_msg_write fd [0] (pl_message.lit id kind 0) PL_DEFAULT_TIMEOUT

/-- The id `id` is guesser or chooser of a stored round that is not finished. -/
def in_active_round (gs : games) (id : Nat) : Bool :=
  (gs.games.take gs.len).any (fun g => !g.finished && (g.guesser == id || g.chooser == id))

/-- The stored sessions, in registry order, that are neither a participant of
a round that is not finished nor flagged finished. -/
def eligible_users (s : server) : List user :=
  (s.sr_users.users.take s.sr_users.len).filter
    (fun u => !in_active_round s.sr_games u.id && !u.finished_game)

/-- The ids of the eligible sessions, in registry order. -/
def eligible_ids (s : server) : List Nat := (eligible_users s).map (fun u => u.id)

/-- The read result at the receiver when the sender's `pl_msg_write(fd, bytes, m)`
arrives in full. A sender whose `memcpy` is out of bounds delivers nothing. -/
def delivered (bytes : List Nat) (m : pl_message) : read_result :=
  match pl_msg_write bytes m with
  | some frame => read_result.data frame
  | none => read_result.error

/-- The characters of the string `"secret"`. -/
def secret : List Nat := [115, 101, 99, 114, 101, 116]

/-- The characters of the string `"apple"`. -/
def apple : List Nat := [97, 112, 112, 108, 101]

/-- The answer of the client's `authenticate` with the password `pass`, before an id is assigned. -/
def password_answer (pass : List Nat) : read_result :=
  delivered (pass ++ [0]) (pl_message.lit 0 mk_enter_passwd pass.length)

/-- The ids that the `assign_uid` frames among the output calls carry, in order. -/
def assigned_ids : List io_event → List Nat
  | [] => []
  | io_event.poll_msg_write _ _ m _ :: rest =>
    if m.kind = mk_assign_uid then m.id :: assigned_ids rest else assigned_ids rest
  | io_event.close _ :: rest => assigned_ids rest

/-- The stored round at index `k` is not finished and has `id` as guesser or chooser. -/
def active_at (gs : games) (id k : Nat) : Prop :=
  k < gs.len ∧ ∃ g, gs.games[k]? = some g ∧ g.finished = false ∧
    (g.guesser = id ∨ g.chooser = id)

instance (gs : games) (id k : Nat) : Decidable (active_at gs id k) :=
  match h : gs.games[k]? with
  | none => isFalse (fun ⟨_, g, hg, _⟩ => by rw [h] at hg; cases hg)
  | some g =>
    if hp : k < gs.len ∧ g.finished = false ∧ (g.guesser = id ∨ g.chooser = id) then
      isTrue ⟨hp.1, g, h, hp.2⟩
    else isFalse (fun ⟨h1, g1, hg, h2⟩ => by
      rw [h] at hg
      cases hg
      exact hp ⟨h1, h2⟩)

/-- Representation invariant of the round registry: the array has `MAX_CLIENTS`
slots and at most `MAX_CLIENTS` of them are in use. -/
def games_wf (gs : games) : Prop :=
  gs.games.length = MAX_CLIENTS ∧ gs.len ≤ MAX_CLIENTS

/-- The round registry `g1` continues `g`: no fewer rounds are stored, and every
round stored in `g` keeps its slot, id, guesser, chooser and word, and stays
finished once finished. -/
def games_extend (g g1 : games) : Prop :=
  g.len ≤ g1.len ∧ ∀ k, k < g.len → ∀ r, g.games[k]? = some r →
    ∃ r1, g1.games[k]? = some r1 ∧ r1.id = r.id ∧ r1.guesser = r.guesser ∧
      r1.chooser = r.chooser ∧ r1.word = r.word ∧ (r.finished = true → r1.finished = true)

instance (gs : games) : Decidable (games_wf gs) := by
  unfold games_wf
  infer_instance

/-- The state of the server after the inputs `inputs` from the empty state with
listening descriptor 3 and password `"secret"`; the empty state when the run is undefined. -/
def state_after (inputs : List input) : server :=
  ((run (secret ++ [0]) (server_init 3) inputs).getD (server_init 3, [])).1

/-- Ten connections, on the descriptors 4 to 13, that answer the password `"secret"`. -/
def ten_connections : List (Int × Int × read_result) :=
  (List.range 10).map (fun i => ((i : Int) + 4, 1, password_answer secret))

/-- The state of the server after the iterations `envs` of the loop of `main`
from the empty state with listening descriptor 3 and password `"secret"`; the
empty state when an iteration is undefined. -/
def state_after_loop (envs : List iteration) : server :=
  ((main_loop (secret ++ [0]) (server_init 3) envs).getD (server_init 3, [])).1

/-- One iteration of the loop of `main` in which the listening socket is ready
and eleven connections wait, each answering the password `"secret"`. -/
def eleven_waiting : iteration :=
  ⟨[POLLIN], ten_connections ++ [(14, 1, password_answer secret)], []⟩

/-- The input is not a select_opponent frame with the same id as guesser and as chooser. -/
def select_distinct : input → Bool
  | input.accepted _ _ _ => true
  | input.readable r =>
    match pl_msg_read r with
    | none => true
    | some m =>
      if m.kind = mk_select_opponent then
        decide ((ge_game_from_msg m).guesser ≠ (ge_game_from_msg m).chooser)
      else true

/-- The input is not a select_opponent frame with a clear finished flag whose
chooser or guesser is, in the state `s`, in a round that is not finished. -/
def select_fresh (s : server) : input → Bool
  | input.accepted _ _ _ => true
  | input.readable r =>
    match pl_msg_read r with
    | none => true
    | some m =>
      if m.kind = mk_select_opponent then
        (ge_game_from_msg m).finished ||
          (!is_in_game s (ge_game_from_msg m).chooser &&
            !is_in_game s (ge_game_from_msg m).guesser)
      else true

/-- Every input of the run from `s` satisfies `select_fresh` in the state it is received in. -/
def fresh_run (pass : List Nat) : server → List input → Bool
  | _, [] => true
  | s, i :: rest =>
    select_fresh s i &&
      match step pass s i with
      | none => true
      | some (s1, _) => fresh_run pass s1 rest

/-- The loop of the client's `select_opponent` for the user `uid` and the
announced ids `opps`; `typed` are the successive results of `read_stdin_num`.
The result is the chooser and the guesser stored in `current_game` when the
loop returns, `none` when none of the typed numbers is accepted. -/
def client_select_opponent (uid : Nat) (opps : List Nat) : List Int → Option (Nat × Nat)
  | [] => none
  | parsed_num :: rest =>
    if parsed_num < 1 then client_select_opponent uid opps rest
    else if parsed_num.toNat = uid then client_select_opponent uid opps rest
    else if parsed_num.toNat ∈ opps then some (uid, parsed_num.toNat)
    else client_select_opponent uid opps rest

/-- The state after one iteration of the loop of `main` in which ten
connections are accepted and authenticated: the registry is full and the accept
loop has called `poll_new_users(true)`. -/
def full_state : server := state_after_loop [⟨[POLLIN], ten_connections, []⟩]

/-- The C string held by the array `w`: the bytes before the first NUL. -/
def c_string (w : List Nat) : List Nat := w.takeWhile (fun c => c != 0)

/-- The message `pl_msg_read` returns for the read result `r`; an all-zero
envelope when it returns `NULL`. -/
def frame_of (r : read_result) : pl_message := (pl_msg_read r).getD (pl_message.lit 0 0 0)

/-- A select_opponent or guess or hint frame as the client's `send_game_msg`
sends it: the bytes of the round record `game` from the session `uid`. -/
def game_frame (uid kind : Nat) (game : ge_game) : read_result :=
  delivered game.to_bytes (pl_message.lit uid kind sizeof_ge_game)

/-- The array `word` holding the string `w` followed by zeros. -/
def word_of (w : List Nat) : List Nat := w ++ List.replicate (55 - w.length) 0

/-- The select_opponent frame of session 1 with guesser 2 and the word `"apple"`. -/
def select_1_2 : input :=
  input.readable (game_frame 1 mk_select_opponent ⟨0, 2, 1, false, word_of apple⟩)

/-- Two connections that answer the password `"secret"`, then session 1 selects
session 2 with the word `"apple"`, then session 2 guesses `"apple"`. -/
def scenario : List input :=
  [input.accepted 4 1 (password_answer secret),
    input.accepted 5 1 (password_answer secret),
    input.readable (game_frame 1 mk_select_opponent ⟨0, 2, 1, false, word_of apple⟩),
    input.readable (game_frame 2 mk_guess ⟨0, 2, 1, false, word_of apple⟩)]

/-! ## Lemmas on the byte representation -/

theorem length_le_bytes (n v : Nat) : (le_bytes n v).length = n := by
  induction n generalizing v with
  | zero => rfl
  | succ n ih => simp [le_bytes, ih]

theorem le_value_le_bytes (n v : Nat) (h : v < 256 ^ n) : le_value (le_bytes n v) = v := by
  induction n generalizing v with
  | zero =>
    have : v = 0 := by simpa using h
    simp [le_bytes, le_value, this]
  | succ n ih =>
    have h2 : v / 256 < 256 ^ n := by
      rw [Nat.div_lt_iff_lt_mul (by norm_num)]
      rw [pow_succ] at h
      exact h
    simp only [le_bytes, le_value, ih _ h2]
    omega

theorem length_zero_raw_bytes : zero_raw_bytes.length = PL_RAW_BYTES_SIZE + 4 := by
  simp [zero_raw_bytes]

theorem length_to_bytes (m : pl_message) (h : m.raw_bytes.length = PL_RAW_BYTES_SIZE + 4) :
    m.to_bytes.length = sizeof_pl_message := by
  simp only [pl_message.to_bytes, List.length_append, length_le_bytes, h, sizeof_pl_message]

theorem of_bytes_to_bytes (m : pl_message) (hid : m.id < SIZE_MOD)
    (hlen : m.raw_bytes_len < SIZE_MOD) (hkind : m.kind < 2 ^ 32)
    (h : m.raw_bytes.length = PL_RAW_BYTES_SIZE + 4) :
    pl_message.of_bytes m.to_bytes = m := by
  obtain ⟨id, len, kind, raw⟩ := m
  simp only at hid hlen hkind h
  simp only [pl_message.of_bytes, pl_message.to_bytes]
  have e1 := le_value_le_bytes 8 id (by simpa [SIZE_MOD] using hid)
  have e2 := le_value_le_bytes 8 len (by simpa [SIZE_MOD] using hlen)
  have e3 := le_value_le_bytes 4 kind (by simpa using hkind)
  have l1 := length_le_bytes 8 id
  have l2 := length_le_bytes 8 len
  have l3 := length_le_bytes 4 kind
  generalize le_bytes 8 id = a at *
  generalize le_bytes 8 len = b at *
  generalize le_bytes 4 kind = c at *
  have t1 : (a ++ b ++ c ++ raw).take 8 = a := by
    rw [List.append_assoc, List.append_assoc, List.take_left' l1]
  have t2 : ((a ++ b ++ c ++ raw).drop 8).take 8 = b := by
    rw [List.append_assoc, List.append_assoc, List.drop_left' l1, List.take_left' l2]
  have t3 : ((a ++ b ++ c ++ raw).drop 16).take 4 = c := by
    rw [List.append_assoc, List.drop_left' (by simp [l1, l2]), List.take_left' l3]
  have t4 : ((a ++ b ++ c ++ raw).drop 20).take (PL_RAW_BYTES_SIZE + 4) = raw := by
    rw [List.drop_left' (by simp [l1, l2, l3]), ← h, List.take_length]
  simp only [t1, t2, t3, t4, e1, e2, e3]

theorem pl_msg_read_full (frame : List Nat) (h : frame.length = sizeof_pl_message) :
    pl_msg_read (read_result.data frame) = some (pl_message.of_bytes frame) := by
  simp only [pl_msg_read, h, Nat.sub_self, List.replicate_zero, List.append_nil]
  rw [← h, List.take_length]

theorem le_bytes_le_value (bs : List Nat) (h : ∀ b ∈ bs, b < 256) :
    le_bytes bs.length (le_value bs) = bs := by
  induction bs with
  | nil => rfl
  | cons b rest ih =>
    have hb : b < 256 := h b (List.mem_cons_self _ _)
    have ih2 := ih (fun x hx => h x (List.mem_cons_of_mem _ hx))
    simp only [List.length_cons, le_bytes, le_value]
    have h1 : (b + 256 * le_value rest) % 256 = b := by omega
    have h2 : (b + 256 * le_value rest) / 256 = le_value rest := by omega
    rw [h1, h2, ih2]

theorem le_bytes_le_value_take (n k : Nat) (raw : List Nat) (h : ∀ b ∈ raw, b < 256)
    (hl : k + n ≤ raw.length) :
    le_bytes n (le_value ((raw.drop k).take n)) = (raw.drop k).take n := by
  have hlen : ((raw.drop k).take n).length = n := by
    simp only [List.length_take, List.length_drop]
    omega
  have hb : ∀ b ∈ (raw.drop k).take n, b < 256 :=
    fun b hb => h b (List.mem_of_mem_drop (List.mem_of_mem_take hb))
  have := le_bytes_le_value _ hb
  rw [hlen] at this
  exact this

/-- The bytes of the record read from a message are the first `sizeof(ge_game)`
bytes of the message when these are bytes and the `bool` is stored as 0 or 1. -/
theorem to_bytes_from_msg (m : pl_message) (hlen : m.raw_bytes.length = PL_RAW_BYTES_SIZE + 4)
    (hb : ∀ b ∈ m.raw_bytes, b < 256) (hfin : m.raw_bytes.getD 24 0 ≤ 1) :
    (ge_game_from_msg m).to_bytes = m.raw_bytes.take sizeof_ge_game := by
  have hl : m.raw_bytes.length = 1028 := hlen
  have e1 := le_bytes_le_value_take 8 0 m.raw_bytes hb (by omega)
  have e2 := le_bytes_le_value_take 8 8 m.raw_bytes hb (by omega)
  have e3 := le_bytes_le_value_take 8 16 m.raw_bytes hb (by omega)
  simp only [List.drop_zero] at e1
  have hd : (m.raw_bytes.drop 24).take 1 = [m.raw_bytes.getD 24 0] := by
    have h24 : 24 < m.raw_bytes.length := by omega
    rw [List.drop_eq_getElem_cons h24, List.getD_eq_getElem _ _ h24]
    rfl
  have e4 : [if decide (m.raw_bytes.getD 24 0 ≠ 0) = true then 1 else 0]
      = (m.raw_bytes.drop 24).take 1 := by
    rw [hd]
    generalize m.raw_bytes.getD 24 0 = v at hfin
    have hcases : v = 0 ∨ v = 1 := by omega
    rcases hcases with h0 | h1
    · subst h0
      rfl
    · subst h1
      rfl
  simp only [ge_game.to_bytes, ge_game_from_msg, e1, e2, e3, e4, sizeof_ge_game]
  have s1 : m.raw_bytes.take (8 + 8 + 8 + 1 + 55)
      = m.raw_bytes.take 8 ++ (m.raw_bytes.drop 8).take 8 ++ (m.raw_bytes.drop 16).take 8
        ++ (m.raw_bytes.drop 24).take 1 ++ (m.raw_bytes.drop 25).take 55 := by
    rw [List.take_add, List.take_add, List.take_add, List.take_add]
  rw [s1]

/-! ## Lemmas on the C string functions -/

theorem strlen_terminated (p : List Nat) (hp : ∀ c ∈ p, c ≠ 0) :
    strlen (p ++ [0]) = some p.length := by
  induction p with
  | nil => simp [strlen]
  | cons c cs ih =>
    have hc : c ≠ 0 := hp c (List.mem_cons_self _ _)
    have ih2 := ih (fun x hx => hp x (List.mem_cons_of_mem _ hx))
    simp [strlen, hc, ih2]

theorem strncmp_equal (p raw : List Nat) (hp : ∀ c ∈ p, c ≠ 0)
    (h : raw.take p.length = p) : strncmp (p ++ [0]) raw p.length = some 0 := by
  induction p generalizing raw with
  | nil => simp [strncmp]
  | cons c cs ih =>
    have hc : c ≠ 0 := hp c (List.mem_cons_self _ _)
    cases raw with
    | nil => simp at h
    | cons b bs =>
      simp only [List.length_cons, List.take_succ_cons, List.cons.injEq] at h
      obtain ⟨hb, ht⟩ := h
      subst hb
      simp only [List.cons_append, List.length_cons, strncmp, ne_eq, not_true_eq_false,
        if_false, hc]
      exact ih bs (fun x hx => hp x (List.mem_cons_of_mem _ hx)) ht

theorem strncmp_differ (p raw : List Nat) (hp : ∀ c ∈ p, c ≠ 0) (i : Nat) (b : Nat)
    (hi : i < p.length) (hb : raw[i]? = some b) (hne : p[i]? ≠ some b) :
    ∃ c, strncmp (p ++ [0]) raw p.length = some c ∧ c ≠ 0 := by
  induction p generalizing raw i with
  | nil => simp at hi
  | cons c cs ih =>
    have hc : c ≠ 0 := hp c (List.mem_cons_self _ _)
    cases raw with
    | nil => simp at hb
    | cons a as =>
      by_cases hca : c = a
      · subst hca
        cases i with
        | zero =>
          simp only [List.getElem?_cons_zero, Option.some.injEq] at hb
          subst hb
          simp at hne
        | succ j =>
          simp only [List.getElem?_cons_succ] at hb hne
          simp only [List.length_cons, Nat.add_lt_add_iff_right] at hi
          simp only [List.cons_append, List.length_cons, strncmp, ne_eq, not_true_eq_false,
            if_false, hc]
          exact ih as (fun x hx => hp x (List.mem_cons_of_mem _ hx)) j hi hb hne
      · refine ⟨(c : Int) - (a : Int), ?_, ?_⟩
        · simp [strncmp, hca]
        · intro h0
          apply hca
          omega

theorem strcmp_terminated (a b : List Nat) (ha : 0 ∈ a) (hb : 0 ∈ b) :
    ∃ c, strcmp a b = some c ∧ (c = 0 ↔ c_string a = c_string b) := by
  induction a generalizing b with
  | nil => simp at ha
  | cons x as ih =>
    cases b with
    | nil => simp at hb
    | cons y bs =>
      by_cases hxy : x = y
      · subst hxy
        by_cases hx : x = 0
        · subst hx
          exact ⟨0, by simp [strcmp], by simp [c_string]⟩
        · have ha2 : 0 ∈ as := by
            rcases List.mem_cons.mp ha with h | h
            · exact absurd h.symm hx
            · exact h
          have hb2 : 0 ∈ bs := by
            rcases List.mem_cons.mp hb with h | h
            · exact absurd h.symm hx
            · exact h
          obtain ⟨c, hc, hiff⟩ := ih bs ha2 hb2
          refine ⟨c, by simp [strcmp, hx, hc], ?_⟩
          rw [hiff]
          simp [c_string, List.takeWhile_cons, hx]
      · refine ⟨(x : Int) - (y : Int), by simp [strcmp, hxy], ?_⟩
        constructor
        · intro h0
          exact absurd (by omega) hxy
        · intro hs
          exfalso
          by_cases hx : x = 0
          · have hy : ¬(y = 0) := fun hy => hxy (by rw [hx, hy])
            simp [c_string, List.takeWhile_cons, hx, hy] at hs
          · by_cases hy : y = 0
            · simp [c_string, List.takeWhile_cons, hx, hy] at hs
            · simp [c_string, List.takeWhile_cons, hx, hy] at hs
              exact hxy hs.1

/-! ## Lemmas on the registries -/

theorem size_pred_succ (i : Nat) (h : i < MAX_CLIENTS) : size_pred (i + 1) = i := by
  have : MAX_CLIENTS < SIZE_MOD := by decide
  unfold size_pred
  rw [show i + 1 + SIZE_MOD - 1 = i + SIZE_MOD by omega, Nat.add_mod_right]
  exact Nat.mod_eq_of_lt (by omega)

theorem find_game_loop_isSome (id : Nat) (l : List ge_game) (i : Nat) :
    (find_game_loop id l i).isSome
      = l.any (fun g => !g.finished && (g.guesser == id || g.chooser == id)) := by
  induction l generalizing i with
  | nil => rfl
  | cons g rest ih =>
    by_cases hf : g.finished = true
    · simp [find_game_loop, hf, ih]
    · by_cases hp : g.guesser = id ∨ g.chooser = id
      · simp [find_game_loop, hf, hp]
      · simp only [find_game_loop, hf, hp, if_false, ih, List.any_cons]
        have : (g.guesser == id || g.chooser == id) = false := by
          simpa [not_or] using hp
        simp only [this, Bool.and_false, Bool.false_or]
        exact ih _

theorem is_in_game_eq (s : server) (id : Nat) :
    is_in_game s id = in_active_round s.sr_games id := by
  simp only [is_in_game, find_game, in_active_round, find_game_loop_isSome]

theorem users_wf_slot (us : users) (h : users_wf us) (u : user)
    (hu : u ∈ us.users.take us.len) : us.users[size_pred u.id]? = some u := by
  obtain ⟨_, hlen, hid⟩ := h
  rw [List.mem_iff_getElem?] at hu
  obtain ⟨i, hi⟩ := hu
  rw [List.getElem?_take] at hi
  by_cases hlt : i < us.len
  · rw [if_pos hlt] at hi
    have h1 := hid i hlt
    rw [hi] at h1
    simp only [Option.map_some', Option.some.injEq] at h1
    rw [h1, size_pred_succ i (by omega)]
    exact hi
  · rw [if_neg hlt] at hi
    exact absurd hi (by simp)

theorem find_opps_eq (s : server) (l : List user)
    (h : ∀ u ∈ l, s.sr_users.users[size_pred u.id]? = some u) :
    find_opps s l = some ((l.filter
      (fun u => !in_active_round s.sr_games u.id && !u.finished_game)).map (fun u => u.id)) := by
  induction l with
  | nil => rfl
  | cons u rest ih =>
    have ih2 := ih (fun x hx => h x (List.mem_cons_of_mem _ hx))
    have hu := h u (List.mem_cons_self _ _)
    simp only [find_opps, is_in_game_eq, is_finished, hu, Option.map_some']
    by_cases hg : in_active_round s.sr_games u.id = true
    · simp [hg, ih2]
    · have hg2 : in_active_round s.sr_games u.id = false := by simpa using hg
      by_cases hf : u.finished_game = true
      · simp [hg2, hf, ih2]
      · have hf2 : u.finished_game = false := by simpa using hf
        simp [hg2, hf2, ih2]

/-- The `show_opponents` write that `announce_opponents` addresses to the user
`u` when the array `opps` holds `all`. -/
theorem announce_loop_eq (s : server) (all : List Nat) (l : List user)
    (h : ∀ u ∈ l, s.sr_users.users[size_pred u.id]? = some u) :
    announce_loop s all (l.map (fun u => u.id)) = some (l.map (fun u =>
      io_event.poll_msg_write u.fd (opps_bytes all)
        (pl_message.lit u.id mk_show_opponents ((sizeof_size_t * all.length) % SIZE_MOD))
        PL_DEFAULT_TIMEOUT)) := by
  induction l with
  | nil => rfl
  | cons u rest ih =>
    have ih2 := ih (fun x hx => h x (List.mem_cons_of_mem _ hx))
    have hu := h u (List.mem_cons_self _ _)
    simp only [List.map_cons, announce_loop, hu, ih2, Option.map_some']

theorem announce_opponents_eq (s : server) (h : users_wf s.sr_users) :
    announce_opponents s = some (if (eligible_ids s).length ≤ 1 then [] else
      (eligible_users s).map (fun u =>
        io_event.poll_msg_write u.fd (opps_bytes (eligible_ids s))
          (pl_message.lit u.id mk_show_opponents
            ((sizeof_size_t * (eligible_ids s).length) % SIZE_MOD))
          PL_DEFAULT_TIMEOUT)) := by
  have hslot := users_wf_slot s.sr_users h
  have hsub : ∀ u ∈ eligible_users s, s.sr_users.users[size_pred u.id]? = some u :=
    fun u hu => hslot u (List.mem_of_mem_filter hu)
  unfold announce_opponents
  rw [find_opps_eq s _ hslot]
  show (if (eligible_ids s).length ≤ 1 then some []
    else announce_loop s (eligible_ids s) (eligible_ids s)) = _
  by_cases hn : (eligible_ids s).length ≤ 1
  · rw [if_pos hn, if_pos hn]
  · rw [if_neg hn, if_neg hn]
    exact announce_loop_eq s (eligible_ids s) (eligible_users s) hsub

theorem length_flatten_le_bytes (l : List Nat) :
    ((l.map (le_bytes 8)).flatten).length = 8 * l.length := by
  induction l with
  | nil => rfl
  | cons a rest ih =>
    simp only [List.map_cons, List.flatten_cons, List.length_append, length_le_bytes, ih,
      List.length_cons]
    omega

theorem take_opps_bytes (l : List Nat) :
    (opps_bytes l).take (8 * l.length) = (l.map (le_bytes 8)).flatten := by
  unfold opps_bytes
  rw [List.map_append, List.flatten_append]
  exact List.take_left' (length_flatten_le_bytes l)

theorem eligible_length_le (s : server) (h : users_wf s.sr_users) :
    (eligible_ids s).length ≤ MAX_CLIENTS := by
  obtain ⟨hl, hlen, _⟩ := h
  have h1 : (eligible_users s).length ≤ (s.sr_users.users.take s.sr_users.len).length :=
    List.length_filter_le _ _
  simp only [eligible_ids, List.length_map]
  simp only [List.length_take] at h1
  omega

theorem users_wf_store (us : users) (h : users_wf us) (hcap : us.len < MAX_CLIENTS) (fd : Int) :
    users_wf ⟨us.users.set us.len ⟨us.len + 1, fd, false⟩, us.len + 1⟩ := by
  obtain ⟨hl, hlen, hid⟩ := h
  refine ⟨by simp [hl], hcap, ?_⟩
  intro i hi
  simp only at hi ⊢
  rw [List.getElem?_set]
  by_cases he : us.len = i
  · rw [if_pos he, if_pos (by omega)]
    simp [he]
  · rw [if_neg he]
    exact hid i (by omega)

theorem poll_new_users_eq (s : server) (b : Bool) (h : users_wf s.sr_users) :
    ∃ pf, poll_new_users s b = some { s with sr_pfds := pf } := by
  obtain ⟨hl, hlen, _⟩ := h
  have h1 : ((s.sr_users.users.take s.sr_users.len).filter
      (fun u => !u.finished_game)).length ≤ (s.sr_users.users.take s.sr_users.len).length :=
    List.length_filter_le _ _
  simp only [List.length_take] at h1
  have h2 : ((s.sr_users.users.take s.sr_users.len).filter
      (fun u => !u.finished_game)).length ≤ MAX_CLIENTS := by omega
  unfold poll_new_users
  cases b
  · simp only [Bool.false_eq_true, if_false, List.length_append, List.length_map,
      List.length_singleton]
    rw [if_pos (by omega)]
    exact ⟨_, rfl⟩
  · simp only [if_true, List.length_append, List.length_map, List.length_nil]
    rw [if_pos (by omega)]
    exact ⟨_, rfl⟩

theorem succ_mod_size (n : Nat) (h : n < MAX_CLIENTS) : (n + 1) % SIZE_MOD = n + 1 := by
  have : MAX_CLIENTS + 1 < SIZE_MOD := by decide
  exact Nat.mod_eq_of_lt (by omega)

theorem pl_poll_msg_read_missing (poll : Int) (r : read_result)
    (h : poll ≤ 0 ∨ r = read_result.error) : pl_poll_msg_read poll r = none := by
  unfold pl_poll_msg_read
  rcases h with h | h
  · rw [if_pos h]
  · subst h
    split <;> rfl

/-! ## Lemmas on `find_game` -/

theorem find_game_loop_some_iff (id : Nat) (l : List ge_game) (i k : Nat) :
    find_game_loop id l i = some k ↔
      ∃ j, k = i + j ∧
        (∃ g, l[j]? = some g ∧ g.finished = false ∧ (g.guesser = id ∨ g.chooser = id)) ∧
        ∀ j1, j1 < j → ∀ g, l[j1]? = some g →
          ¬(g.finished = false ∧ (g.guesser = id ∨ g.chooser = id)) := by
  induction l generalizing i with
  | nil => simp [find_game_loop]
  | cons g rest ih =>
    by_cases hp : g.finished = false ∧ (g.guesser = id ∨ g.chooser = id)
    · have hf : ¬(g.finished = true) := by simp [hp.1]
      have hfirst : find_game_loop id (g :: rest) i = some i := by
        simp [find_game_loop, hf, hp.2]
      rw [hfirst]
      constructor
      · intro h
        have hik : i = k := Option.some.inj h
        exact ⟨0, by omega, ⟨g, List.getElem?_cons_zero, hp⟩,
          fun j1 hj1 => absurd hj1 (Nat.not_lt_zero _)⟩
      · rintro ⟨j, hj, _, hmin⟩
        cases j with
        | zero =>
          have hik : i = k := by omega
          rw [hik]
        | succ j => exact absurd hp (hmin 0 (Nat.succ_pos _) g List.getElem?_cons_zero)
    · have hstep : find_game_loop id (g :: rest) i = find_game_loop id rest (i + 1) := by
        by_cases hf : g.finished = true
        · simp [find_game_loop, hf]
        · have hf2 : g.finished = false := by simpa using hf
          have hq : ¬(g.guesser = id ∨ g.chooser = id) := fun hq => hp ⟨hf2, hq⟩
          simp [find_game_loop, hf, hq]
      rw [hstep, ih]
      constructor
      · rintro ⟨j, hj, hg, hmin⟩
        refine ⟨j + 1, by omega, by simpa using hg, ?_⟩
        intro j1 hj1 g1 hg1
        cases j1 with
        | zero =>
          simp only [List.getElem?_cons_zero, Option.some.injEq] at hg1
          subst hg1
          exact hp
        | succ j1 =>
          simp only [List.getElem?_cons_succ] at hg1
          exact hmin j1 (by omega) g1 hg1
      · rintro ⟨j, hj, hg, hmin⟩
        cases j with
        | zero =>
          obtain ⟨g1, hg1, hp1⟩ := hg
          simp only [List.getElem?_cons_zero, Option.some.injEq] at hg1
          subst hg1
          exact absurd hp1 hp
        | succ j =>
          refine ⟨j, by omega, by simpa using hg, ?_⟩
          intro j1 hj1 g1 hg1
          exact hmin (j1 + 1) (by omega) g1 (by simpa using hg1)

theorem active_at_take (gs : games) (id k : Nat) :
    active_at gs id k ↔ ∃ g, (gs.games.take gs.len)[k]? = some g ∧ g.finished = false ∧
      (g.guesser = id ∨ g.chooser = id) := by
  unfold active_at
  rw [List.getElem?_take]
  by_cases hk : k < gs.len
  · simp [hk]
  · simp [hk]

/-- The function `find_game` returns the first stored round that is not
finished and has `id` as guesser or chooser. -/
theorem find_game_some_iff (gs : games) (id k : Nat) :
    find_game gs id = some k ↔ active_at gs id k ∧ ∀ j, j < k → ¬active_at gs id j := by
  unfold find_game
  rw [find_game_loop_some_iff]
  constructor
  · rintro ⟨j, hj, hg, hmin⟩
    have hkj : k = j := by omega
    subst hkj
    refine ⟨(active_at_take gs id k).mpr hg, ?_⟩
    intro j1 hj1 ha
    obtain ⟨g, hg1, hp⟩ := (active_at_take gs id j1).mp ha
    exact hmin j1 hj1 g hg1 hp
  · rintro ⟨ha, hmin⟩
    refine ⟨k, by omega, (active_at_take gs id k).mp ha, ?_⟩
    intro j1 hj1 g hg1 hp
    exact hmin j1 hj1 ((active_at_take gs id j1).mpr ⟨g, hg1, hp⟩)

theorem find_game_none_iff (gs : games) (id : Nat) :
    find_game gs id = none ↔ ∀ k, ¬active_at gs id k := by
  constructor
  · intro h k ha
    have hex : ∃ k, active_at gs id k := ⟨k, ha⟩
    classical
    obtain ⟨k0, hk0, hmin⟩ := Nat.findX hex
    have := (find_game_some_iff gs id k0).mpr ⟨hk0, hmin⟩
    rw [h] at this
    exact absurd this (by simp)
  · intro h
    cases hfg : find_game gs id with
    | none => rfl
    | some k => exact absurd ((find_game_some_iff gs id k).mp hfg).1 (h k)

/-! ## Lemmas on the steps of the server -/

theorem announce_loop_assigned (s : server) (all l : List Nat) (evs : List io_event)
    (h : announce_loop s all l = some evs) : assigned_ids evs = [] := by
  induction l generalizing evs with
  | nil =>
    simp only [announce_loop, Option.some.injEq] at h
    subst h
    rfl
  | cons o rest ih =>
    simp only [announce_loop] at h
    split at h
    · exact absurd h (by simp)
    · simp only [Option.map_eq_some'] at h
      obtain ⟨evs1, h1, h2⟩ := h
      subst h2
      simp only [assigned_ids, pl_message.lit, mk_show_opponents, mk_assign_uid]
      simpa using ih evs1 h1

theorem announce_opponents_assigned (s : server) (evs : List io_event)
    (h : announce_opponents s = some evs) : assigned_ids evs = [] := by
  unfold announce_opponents at h
  split at h
  · exact absurd h (by simp)
  · split at h
    · simp only [Option.some.injEq] at h
      subst h
      rfl
    · exact announce_loop_assigned s _ _ evs h

theorem poll_new_users_fields (s s1 : server) (b : Bool) (h : poll_new_users s b = some s1) :
    s1.sr_users = s.sr_users ∧ s1.sr_games = s.sr_games ∧ s1.serverfd = s.serverfd := by
  unfold poll_new_users at h
  cases b <;> simp only [Bool.false_eq_true, if_false, if_true] at h <;> split at h <;>
    first
    | (simp only [Option.some.injEq] at h; subst h; exact ⟨rfl, rfl, rfl⟩)
    | exact absurd h (by simp)

theorem announce_opponents_congr (s s1 : server) (hu : s1.sr_users = s.sr_users)
    (hg : s1.sr_games = s.sr_games) : announce_opponents s1 = announce_opponents s := by
  obtain ⟨fd, gs, us, pf⟩ := s
  obtain ⟨fd1, gs1, us1, pf1⟩ := s1
  simp only at hu hg
  subst hu hg
  have e1 : ∀ id, is_in_game ⟨fd1, gs1, us1, pf1⟩ id = is_in_game ⟨fd, gs1, us1, pf⟩ id :=
    fun _ => rfl
  have e2 : ∀ id, is_finished ⟨fd1, gs1, us1, pf1⟩ id = is_finished ⟨fd, gs1, us1, pf⟩ id :=
    fun _ => rfl
  have e3 : ∀ l, find_opps ⟨fd1, gs1, us1, pf1⟩ l = find_opps ⟨fd, gs1, us1, pf⟩ l := by
    intro l
    induction l with
    | nil => rfl
    | cons u rest ih => simp only [find_opps, e1, e2, ih]
  have e4 : ∀ all l, announce_loop ⟨fd1, gs1, us1, pf1⟩ all l
      = announce_loop ⟨fd, gs1, us1, pf⟩ all l := by
    intro all l
    induction l with
    | nil => rfl
    | cons o rest ih => simp only [announce_loop, ih]
  simp only [announce_opponents, e3, e4]

/-- The two outcomes of `authenticate`. -/
theorem authenticate_cases (s s1 : server) (fd poll : Int) (r : read_result) (pass : List Nat)
    (e : List io_event) (h : authenticate s fd pass poll r = some (s1, e)) :
    (s1 = s ∧ e = [empty_msg_write fd 0 mk_enter_passwd,
        empty_msg_write fd 0 mk_wrong_passwd, io_event.close fd]) ∨
    (s.sr_users.len < s.sr_users.users.length ∧
      s1.sr_users = ⟨s.sr_users.users.set s.sr_users.len
        ⟨(s.sr_users.len + 1) % SIZE_MOD, fd, false⟩, (s.sr_users.len + 1) % SIZE_MOD⟩ ∧
      s1.sr_games = s.sr_games ∧ s1.serverfd = s.serverfd ∧
      ∃ rest, e = empty_msg_write fd 0 mk_enter_passwd
          :: empty_msg_write fd ((s.sr_users.len + 1) % SIZE_MOD) mk_assign_uid :: rest ∧
        announce_opponents s1 = some rest) := by
  unfold authenticate at h
  simp only at h
  split at h
  · left
    simp only [Option.some.injEq, Prod.mk.injEq] at h
    exact ⟨h.1.symm, h.2.symm⟩
  · split at h
    · exact absurd h (by simp)
    · split at h
      · left
        simp only [Option.some.injEq, Prod.mk.injEq] at h
        exact ⟨h.1.symm, h.2.symm⟩
      · split at h
        · exact absurd h (by simp)
        · split at h
          · left
            simp only [Option.some.injEq, Prod.mk.injEq] at h
            exact ⟨h.1.symm, h.2.symm⟩
          · split at h
            · rename_i hslot
              split at h
              · exact absurd h (by simp)
              · rename_i s2 hpoll
                split at h
                · exact absurd h (by simp)
                · rename_i evs hann
                  simp only [Option.some.injEq, Prod.mk.injEq] at h
                  obtain ⟨h1, h2⟩ := h
                  subst h1 h2
                  obtain ⟨f1, f2, f3⟩ := poll_new_users_fields _ _ _ hpoll
                  right
                  exact ⟨hslot, f1, f2, f3, evs, rfl, hann⟩
            · exact absurd h (by simp)

theorem send_game_msg_assigned (s : server) (game : ge_game) (kind : Nat) (bytes : List Nat)
    (len : Nat) (evs : List io_event) (hk : kind ≠ mk_assign_uid)
    (h : send_game_msg s game kind bytes len = some evs) : assigned_ids evs = [] := by
  unfold send_game_msg at h
  split at h
  · simp only [Option.some.injEq] at h
    subst h
    simp [assigned_ids, pl_message.lit, hk]
  · exact absurd h (by simp)

theorem case_select_opponent_result (s s1 : server) (m : pl_message) (e : List io_event)
    (h : case_select_opponent s m = some (s1, e)) :
    s.sr_games.len < s.sr_games.games.length ∧
    s1 = { s with sr_games :=
      ⟨s.sr_games.games.set s.sr_games.len { ge_game_from_msg m with id := s.sr_games.len },
        (s.sr_games.len + 1) % SIZE_MOD⟩ } ∧
    (e = [] ∨ send_game_msg s1 { ge_game_from_msg m with id := s.sr_games.len }
      mk_select_opponent
      (ge_game.to_bytes { ge_game_from_msg m with id := s.sr_games.len, word := zero_word })
      sizeof_ge_game = some e) := by
  unfold case_select_opponent at h
  simp only at h
  split at h
  · rename_i hlt
    refine ⟨hlt, ?_⟩
    split at h
    · simp only [Option.some.injEq, Prod.mk.injEq] at h
      exact ⟨h.1.symm, Or.inl h.2.symm⟩
    · simp only [Option.map_eq_some', Prod.mk.injEq] at h
      obtain ⟨evs, h1, h2, h3⟩ := h
      subst h2 h3
      exact ⟨rfl, Or.inr h1⟩
  · exact absurd h (by simp)

theorem case_guess_result (s s1 : server) (m : pl_message) (e : List io_event)
    (h : case_guess s m = some (s1, e)) :
    s1 = s ∧ ∃ kind bytes len, kind ≠ mk_assign_uid ∧
      send_game_msg s (ge_game_from_msg m) kind bytes len = some e := by
  unfold case_guess at h
  simp only at h
  split at h
  · exact absurd h (by simp)
  · split at h
    · exact absurd h (by simp)
    · split at h
      · simp only [Option.map_eq_some', Prod.mk.injEq] at h
        obtain ⟨evs, h1, h2, h3⟩ := h
        subst h2 h3
        exact ⟨rfl, _, _, _, by decide, h1⟩
      · simp only [Option.map_eq_some', Prod.mk.injEq] at h
        obtain ⟨evs, h1, h2, h3⟩ := h
        subst h2 h3
        exact ⟨rfl, _, _, _, by decide, h1⟩

theorem case_hint_result (s s1 : server) (m : pl_message) (e : List io_event)
    (h : case_hint s m = some (s1, e)) : s1 = s ∧ assigned_ids e = [] := by
  unfold case_hint at h
  simp only at h
  split at h
  · exact absurd h (by simp)
  · simp only [Option.some.injEq, Prod.mk.injEq] at h
    obtain ⟨h1, h2⟩ := h
    subst h1 h2
    exact ⟨rfl, by simp [assigned_ids, pl_message.lit, mk_hint, mk_assign_uid]⟩

theorem case_exit_result (s s1 : server) (m : pl_message) (e : List io_event)
    (h : case_exit s m = some (s1, e)) :
    ∃ u, s.sr_users.users[size_pred m.id]? = some u ∧
      s1 = { s with
        sr_users := ⟨s.sr_users.users.set (size_pred m.id) { u with finished_game := true },
          s.sr_users.len⟩,
        sr_games := finish_game s.sr_games m.id } ∧
      e = [io_event.close u.fd] := by
  unfold case_exit at h
  split at h
  · exact absurd h (by simp)
  · rename_i u hu
    simp only [Option.some.injEq, Prod.mk.injEq] at h
    exact ⟨u, hu, h.1.symm, h.2.symm⟩

/-- What `dispatch` does to the user registry: the count, the array size and
every stored id and descriptor stay; no `assign_uid` frame is written. -/
theorem dispatch_users (s s1 : server) (m : pl_message) (e : List io_event)
    (h : dispatch s m = some (s1, e)) :
    s1.sr_users.len = s.sr_users.len ∧
    s1.sr_users.users.length = s.sr_users.users.length ∧
    (∀ i : Nat, (s1.sr_users.users[i]?).map (fun u => u.id)
      = (s.sr_users.users[i]?).map (fun u => u.id)) ∧
    assigned_ids e = [] := by
  unfold dispatch at h
  split at h
  · obtain ⟨_, h1, h2⟩ := case_select_opponent_result s s1 m e h
    subst h1
    refine ⟨rfl, rfl, fun _ => rfl, ?_⟩
    rcases h2 with h2 | h2
    · subst h2
      rfl
    · exact send_game_msg_assigned _ _ _ _ _ _ (by decide) h2
  · split at h
    · obtain ⟨h1, kind, bytes, len, hk, h2⟩ := case_guess_result s s1 m e h
      subst h1
      exact ⟨rfl, rfl, fun _ => rfl, send_game_msg_assigned _ _ _ _ _ _ hk h2⟩
    · split at h
      · obtain ⟨h1, h2⟩ := case_hint_result s s1 m e h
        subst h1
        exact ⟨rfl, rfl, fun _ => rfl, h2⟩
      · split at h
        · obtain ⟨u, hu, h1, h2⟩ := case_exit_result s s1 m e h
          subst h1 h2
          refine ⟨rfl, by simp, ?_, rfl⟩
          intro i
          simp only [List.getElem?_set]
          by_cases hi : size_pred m.id = i
          · subst hi
            have hlt : size_pred m.id < s.sr_users.users.length := by
              by_contra hge
              rw [List.getElem?_eq_none (by omega)] at hu
              exact absurd hu (by simp)
            simp [hlt, hu]
          · simp [hi]
        · simp only [Option.some.injEq, Prod.mk.injEq] at h
          obtain ⟨h1, h2⟩ := h
          subst h1 h2
          exact ⟨rfl, rfl, fun _ => rfl, rfl⟩

theorem assigned_ids_append (a b : List io_event) :
    assigned_ids (a ++ b) = assigned_ids a ++ assigned_ids b := by
  induction a with
  | nil => rfl
  | cons x rest ih =>
    cases x with
    | poll_msg_write fd bytes m t =>
      by_cases hk : m.kind = mk_assign_uid
      · simp [assigned_ids, hk, ih]
      · simp [assigned_ids, hk, ih]
    | close fd => simpa [assigned_ids] using ih

/-- One step of the server from a well-formed user registry: the registry
stays well-formed, no stored id changes, and either the count stays and no id
is assigned, or the count grows by one and exactly the new count is assigned. -/
theorem step_users (pass : List Nat) (s s1 : server) (i : input) (e : List io_event)
    (hwf : users_wf s.sr_users) (h : step pass s i = some (s1, e)) :
    users_wf s1.sr_users ∧
    (∀ k, k < s.sr_users.len → (s1.sr_users.users[k]?).map (fun u => u.id)
      = (s.sr_users.users[k]?).map (fun u => u.id)) ∧
    ((s1.sr_users.len = s.sr_users.len ∧ assigned_ids e = []) ∨
      (s1.sr_users.len = s.sr_users.len + 1 ∧ assigned_ids e = [s.sr_users.len + 1])) := by
  have hdisp : ∀ m, dispatch s m = some (s1, e) →
      users_wf s1.sr_users ∧
      (∀ k, k < s.sr_users.len → (s1.sr_users.users[k]?).map (fun u => u.id)
        = (s.sr_users.users[k]?).map (fun u => u.id)) ∧
      ((s1.sr_users.len = s.sr_users.len ∧ assigned_ids e = []) ∨
        (s1.sr_users.len = s.sr_users.len + 1 ∧ assigned_ids e = [s.sr_users.len + 1])) := by
    intro m hm
    obtain ⟨d1, d2, d3, d4⟩ := dispatch_users s s1 m e hm
    refine ⟨⟨by rw [d2]; exact hwf.1, by rw [d1]; exact hwf.2.1, ?_⟩, fun k _ => d3 k,
      Or.inl ⟨d1, d4⟩⟩
    intro k hk
    rw [d1] at hk
    rw [d3 k]
    exact hwf.2.2 k hk
  have hsame : s1 = s → e = [] →
      users_wf s1.sr_users ∧
      (∀ k, k < s.sr_users.len → (s1.sr_users.users[k]?).map (fun u => u.id)
        = (s.sr_users.users[k]?).map (fun u => u.id)) ∧
      ((s1.sr_users.len = s.sr_users.len ∧ assigned_ids e = []) ∨
        (s1.sr_users.len = s.sr_users.len + 1 ∧ assigned_ids e = [s.sr_users.len + 1])) := by
    intro h1 h2
    subst h1 h2
    exact ⟨hwf, fun _ _ => rfl, Or.inl ⟨rfl, rfl⟩⟩
  cases i with
  | readable r =>
    simp only [step, read_step] at h
    split at h
    · simp only [Option.some.injEq, Prod.mk.injEq] at h
      exact hsame h.1.symm h.2.symm
    · exact hdisp _ h
  | accepted fd poll r =>
    simp only [step, accept_step] at h
    split at h
    · rename_i hcap
      split at h
      · rcases authenticate_cases s s1 fd poll r pass e h with ⟨h1, h2⟩ | ⟨_, h1, _, _, rest, h2, h3⟩
        · subst h1 h2
          exact ⟨hwf, fun _ _ => rfl, Or.inl ⟨rfl, rfl⟩⟩
        · rw [succ_mod_size _ hcap] at h1 h2
          have hst := users_wf_store s.sr_users hwf hcap fd
          rw [← h1] at hst
          refine ⟨hst, ?_, Or.inr ⟨by rw [h1], ?_⟩⟩
          · intro k hk
            rw [h1]
            simp only
            rw [List.getElem?_set_ne (by omega)]
          · subst h2
            have := announce_opponents_assigned s1 rest h3
            simp [assigned_ids, empty_msg_write, pl_message.lit, mk_enter_passwd,
              mk_assign_uid, this]
      · simp only [Option.some.injEq, Prod.mk.injEq] at h
        exact hsame h.1.symm h.2.symm
    · simp only [Option.map_eq_some', Prod.mk.injEq] at h
      obtain ⟨s2, h1, h2, h3⟩ := h
      subst h2 h3
      obtain ⟨f1, _, _⟩ := poll_new_users_fields _ _ _ h1
      rw [f1]
      exact ⟨hwf, fun _ _ => rfl, Or.inl ⟨rfl, rfl⟩⟩

theorem users_wf_init (serverfd : Int) : users_wf (server_init serverfd).sr_users :=
  ⟨List.length_replicate _ _, Nat.zero_le _, fun i hi => absurd hi (Nat.not_lt_zero i)⟩

/-- A run of the server from a well-formed user registry: the registry stays
well-formed, the count does not decrease, no stored id changes, and the ids
assigned are the counts reached, in order. -/
theorem run_users (pass : List Nat) (inputs : List input) (s s1 : server) (e : List io_event)
    (hwf : users_wf s.sr_users) (h : run pass s inputs = some (s1, e)) :
    users_wf s1.sr_users ∧ s.sr_users.len ≤ s1.sr_users.len ∧
    (∀ k, k < s.sr_users.len → (s1.sr_users.users[k]?).map (fun u => u.id)
      = (s.sr_users.users[k]?).map (fun u => u.id)) ∧
    assigned_ids e = List.range' (s.sr_users.len + 1) (s1.sr_users.len - s.sr_users.len) := by
  induction inputs generalizing s e with
  | nil =>
    simp only [run, Option.some.injEq, Prod.mk.injEq] at h
    obtain ⟨h1, h2⟩ := h
    subst h1 h2
    exact ⟨hwf, le_refl _, fun _ _ => rfl, by simp [assigned_ids]⟩
  | cons i rest ih =>
    simp only [run] at h
    split at h
    · exact absurd h (by simp)
    · rename_i s2 e2 hstep
      split at h
      · exact absurd h (by simp)
      · rename_i s3 e3 hrun
        simp only [Option.some.injEq, Prod.mk.injEq] at h
        obtain ⟨h1, h2⟩ := h
        subst h1 h2
        obtain ⟨w2, p2, c2⟩ := step_users pass s s2 i e2 hwf hstep
        obtain ⟨w3, l3, p3, a3⟩ := ih s2 e3 w2 hrun
        have hle : s.sr_users.len ≤ s2.sr_users.len := by
          rcases c2 with ⟨c, _⟩ | ⟨c, _⟩ <;> omega
        refine ⟨w3, by omega, ?_, ?_⟩
        · intro k hk
          rw [p3 k (by omega), p2 k hk]
        · rw [assigned_ids_append, a3]
          rcases c2 with ⟨c, ca⟩ | ⟨c, ca⟩
          · rw [ca, c, List.nil_append]
          · rw [ca, c]
            have : s3.sr_users.len - s.sr_users.len
                = (s3.sr_users.len - (s.sr_users.len + 1)) + 1 := by omega
            rw [this, List.range'_succ]
            rfl

theorem games_extend_refl (g : games) : games_extend g g :=
  ⟨le_refl _, fun _ _ r hr => ⟨r, hr, rfl, rfl, rfl, rfl, fun h => h⟩⟩

theorem games_extend_trans (g g1 g2 : games) (h1 : games_extend g g1)
    (h2 : games_extend g1 g2) : games_extend g g2 := by
  refine ⟨le_trans h1.1 h2.1, ?_⟩
  intro k hk r hr
  obtain ⟨r1, hr1, a1, a2, a3, a4, a5⟩ := h1.2 k hk r hr
  obtain ⟨r2, hr2, b1, b2, b3, b4, b5⟩ := h2.2 k (by have := h1.1; omega) r1 hr1
  exact ⟨r2, hr2, by rw [b1, a1], by rw [b2, a2], by rw [b3, a3], by rw [b4, a4],
    fun h => b5 (a5 h)⟩

theorem finish_game_len (gs : games) (id : Nat) : (finish_game gs id).len = gs.len := by
  unfold finish_game
  split <;> rfl

theorem finish_game_length (gs : games) (id : Nat) :
    (finish_game gs id).games.length = gs.games.length := by
  unfold finish_game
  split
  · rfl
  · simp

theorem finish_game_extend (gs : games) (id : Nat) : games_extend gs (finish_game gs id) := by
  unfold finish_game
  split
  · exact games_extend_refl gs
  · rename_i k0 _
    refine ⟨le_refl _, ?_⟩
    intro k _ r hr
    simp only [List.getElem?_modify, hr, Option.map_eq_map, Option.map_some']
    by_cases hk : k0 = k
    · simp [hk]
    · simp only [hk, if_false]
      exact ⟨r, rfl, rfl, rfl, rfl, rfl, fun h => h⟩

theorem succ_mod_size_games (gs : games) (hwf : games_wf gs) (h : gs.len < gs.games.length) :
    (gs.len + 1) % SIZE_MOD = gs.len + 1 := by
  apply succ_mod_size
  rw [← hwf.1]
  exact h

/-- What `dispatch` does to the round registry. -/
theorem dispatch_games (s s1 : server) (m : pl_message) (e : List io_event)
    (hwf : games_wf s.sr_games) (h : dispatch s m = some (s1, e)) :
    games_wf s1.sr_games ∧ games_extend s.sr_games s1.sr_games := by
  unfold dispatch at h
  split at h
  · obtain ⟨hlt, h1, _⟩ := case_select_opponent_result s s1 m e h
    subst h1
    simp only [succ_mod_size_games _ hwf hlt]
    refine ⟨⟨by simp [hwf.1], ?_⟩, ⟨by simp, ?_⟩⟩
    · have := hwf.1
      simp only
      omega
    · intro k hk r hr
      simp only
      rw [List.getElem?_set_ne (by omega)]
      exact ⟨r, hr, rfl, rfl, rfl, rfl, fun h => h⟩
  · split at h
    · obtain ⟨h1, _⟩ := case_guess_result s s1 m e h
      subst h1
      exact ⟨hwf, games_extend_refl _⟩
    · split at h
      · obtain ⟨h1, _⟩ := case_hint_result s s1 m e h
        subst h1
        exact ⟨hwf, games_extend_refl _⟩
      · split at h
        · obtain ⟨u, _, h1, _⟩ := case_exit_result s s1 m e h
          subst h1
          refine ⟨⟨?_, ?_⟩, finish_game_extend _ _⟩
          · simp only [finish_game_length]
            exact hwf.1
          · simp only [finish_game_len]
            exact hwf.2
        · simp only [Option.some.injEq, Prod.mk.injEq] at h
          obtain ⟨h1, _⟩ := h
          subst h1
          exact ⟨hwf, games_extend_refl _⟩

theorem step_games (pass : List Nat) (s s1 : server) (i : input) (e : List io_event)
    (hwf : games_wf s.sr_games) (h : step pass s i = some (s1, e)) :
    games_wf s1.sr_games ∧ games_extend s.sr_games s1.sr_games := by
  cases i with
  | readable r =>
    simp only [step, read_step] at h
    split at h
    · simp only [Option.some.injEq, Prod.mk.injEq] at h
      obtain ⟨h1, _⟩ := h
      subst h1
      exact ⟨hwf, games_extend_refl _⟩
    · exact dispatch_games s s1 _ e hwf h
  | accepted fd poll r =>
    simp only [step, accept_step] at h
    split at h
    · split at h
      · rcases authenticate_cases s s1 fd poll r pass e h with ⟨h1, _⟩ | ⟨_, _, h1, _⟩
        · subst h1
          exact ⟨hwf, games_extend_refl _⟩
        · rw [h1]
          exact ⟨hwf, games_extend_refl _⟩
      · simp only [Option.some.injEq, Prod.mk.injEq] at h
        obtain ⟨h1, _⟩ := h
        subst h1
        exact ⟨hwf, games_extend_refl _⟩
    · simp only [Option.map_eq_some', Prod.mk.injEq] at h
      obtain ⟨s2, h1, h2, _⟩ := h
      subst h2
      obtain ⟨_, f2, _⟩ := poll_new_users_fields _ _ _ h1
      rw [f2]
      exact ⟨hwf, games_extend_refl _⟩

theorem run_games (pass : List Nat) (inputs : List input) (s s1 : server) (e : List io_event)
    (hwf : games_wf s.sr_games) (h : run pass s inputs = some (s1, e)) :
    games_wf s1.sr_games ∧ games_extend s.sr_games s1.sr_games := by
  induction inputs generalizing s e with
  | nil =>
    simp only [run, Option.some.injEq, Prod.mk.injEq] at h
    obtain ⟨h1, _⟩ := h
    subst h1
    exact ⟨hwf, games_extend_refl _⟩
  | cons i rest ih =>
    simp only [run] at h
    split at h
    · exact absurd h (by simp)
    · rename_i s2 e2 hstep
      split at h
      · exact absurd h (by simp)
      · rename_i s3 e3 hrun
        simp only [Option.some.injEq, Prod.mk.injEq] at h
        obtain ⟨h1, _⟩ := h
        subst h1
        obtain ⟨w2, x2⟩ := step_games pass s s2 i e2 hwf hstep
        obtain ⟨w3, x3⟩ := ih s2 e3 w2 hrun
        exact ⟨w3, games_extend_trans _ _ _ x2 x3⟩

/-- A round that is active in the continuation of a registry, in a slot the
registry had in use, was active in the registry. -/
theorem active_at_of_extend (g g1 : games) (hwf : games_wf g) (hx : games_extend g g1)
    (id k : Nat) (hk : k < g.len) (h : active_at g1 id k) : active_at g id k := by
  obtain ⟨_, r1, hr1, hf, hp⟩ := h
  have hlt : k < g.games.length := by
    have := hwf.1
    have := hwf.2
    omega
  obtain ⟨r, hr⟩ : ∃ r, g.games[k]? = some r := ⟨g.games[k], List.getElem?_eq_getElem hlt⟩
  obtain ⟨r2, hr2, _, a2, a3, _, a5⟩ := hx.2 k hk r hr
  rw [hr1] at hr2
  cases hr2
  refine ⟨hk, r, hr, ?_, by rw [← a2, ← a3]; exact hp⟩
  cases hrf : r.finished with
  | false => rfl
  | true =>
    rw [a5 hrf] at hf
    exact absurd hf (by simp)

theorem length_ge_game_to_bytes (g : ge_game) (h : g.word.length = 55) :
    g.to_bytes.length = sizeof_ge_game := by
  simp [ge_game.to_bytes, length_le_bytes, h, sizeof_ge_game]

theorem length_word_from_msg (m : pl_message) (h : m.raw_bytes.length = PL_RAW_BYTES_SIZE + 4) :
    (ge_game_from_msg m).word.length = 55 := by
  simp only [ge_game_from_msg, List.length_take, List.length_drop, h, PL_RAW_BYTES_SIZE]
  rfl

theorem send_game_msg_eq (s : server) (game : ge_game) (kind : Nat) (bytes : List Nat)
    (len : Nat) (ug uc : user)
    (hug : s.sr_users.users[size_pred game.guesser]? = some ug)
    (huc : s.sr_users.users[size_pred game.chooser]? = some uc) :
    send_game_msg s game kind bytes len
      = some [io_event.poll_msg_write ug.fd bytes (pl_message.lit game.guesser kind len)
            PL_DEFAULT_TIMEOUT,
          io_event.poll_msg_write uc.fd bytes (pl_message.lit game.chooser kind len)
            PL_DEFAULT_TIMEOUT] := by
  simp only [send_game_msg, hug, huc]

theorem dispatch_guess (s : server) (m : pl_message) (h : m.kind = mk_guess) :
    dispatch s m = case_guess s m := by
  simp [dispatch, h, mk_guess, mk_select_opponent]

theorem dispatch_select_opponent (s : server) (m : pl_message)
    (h : m.kind = mk_select_opponent) : dispatch s m = case_select_opponent s m := by
  simp [dispatch, h]

theorem dispatch_exit (s : server) (m : pl_message) (h : m.kind = mk_exit) :
    dispatch s m = case_exit s m := by
  simp [dispatch, h, mk_exit, mk_guess, mk_select_opponent, mk_hint]

theorem dispatch_hint (s : server) (m : pl_message) (h : m.kind = mk_hint) :
    dispatch s m = case_hint s m := by
  simp [dispatch, h, mk_hint, mk_guess, mk_select_opponent]

theorem pl_msg_read_zero_bytes :
    pl_msg_read (read_result.data []) = some (pl_message.lit 0 mk_exit 0) := by
  decide

/-- A step of the server either keeps the round count, or is the dispatch of a
select_opponent frame, which stores the record of the frame in the first free
slot with the slot's index as id. -/
theorem step_games_cases (pass : List Nat) (s s1 : server) (i : input) (e : List io_event)
    (hwf : games_wf s.sr_games) (h : step pass s i = some (s1, e)) :
    s1.sr_games.len = s.sr_games.len ∨
    ∃ r m, i = input.readable r ∧ pl_msg_read r = some m ∧ m.kind = mk_select_opponent ∧
      s1.sr_games.len = s.sr_games.len + 1 ∧
      s1.sr_games.games[s.sr_games.len]?
        = some { ge_game_from_msg m with id := s.sr_games.len } := by
  cases i with
  | accepted fd poll r =>
    left
    simp only [step, accept_step] at h
    split at h
    · split at h
      · rcases authenticate_cases s s1 fd poll r pass e h with ⟨h1, _⟩ | ⟨_, _, h1, _⟩
        · rw [h1]
        · rw [h1]
      · simp only [Option.some.injEq, Prod.mk.injEq] at h
        rw [← h.1]
    · simp only [Option.map_eq_some', Prod.mk.injEq] at h
      obtain ⟨s2, h1, h2, _⟩ := h
      subst h2
      rw [(poll_new_users_fields _ _ _ h1).2.1]
  | readable r =>
    simp only [step, read_step] at h
    split at h
    · left
      simp only [Option.some.injEq, Prod.mk.injEq] at h
      rw [← h.1]
    · rename_i m hm
      by_cases hk : m.kind = mk_select_opponent
      · right
        rw [dispatch_select_opponent s m hk] at h
        obtain ⟨hlt, hs1, _⟩ := case_select_opponent_result s s1 m e h
        refine ⟨r, m, rfl, hm, hk, ?_, ?_⟩
        · rw [hs1]
          exact succ_mod_size_games _ hwf hlt
        · rw [hs1]
          simp only
          rw [List.getElem?_set_self hlt]
      · left
        unfold dispatch at h
        rw [if_neg hk] at h
        split at h
        · rw [(case_guess_result s s1 m e h).1]
        · split at h
          · rw [(case_hint_result s s1 m e h).1]
          · split at h
            · obtain ⟨u, _, h1, _⟩ := case_exit_result s s1 m e h
              rw [h1]
              exact finish_game_len _ _
            · simp only [Option.some.injEq, Prod.mk.injEq] at h
              rw [← h.1]

theorem is_in_game_false_iff (s : server) (id : Nat) :
    is_in_game s id = false ↔ ∀ k, ¬active_at s.sr_games id k := by
  rw [← find_game_none_iff]
  unfold is_in_game
  cases find_game s.sr_games id <;> simp

theorem select_distinct_frame (r : read_result) (m : pl_message)
    (hd : select_distinct (input.readable r) = true) (hm : pl_msg_read r = some m)
    (hk : m.kind = mk_select_opponent) :
    (ge_game_from_msg m).guesser ≠ (ge_game_from_msg m).chooser := by
  simp only [select_distinct, hm, hk, if_true, decide_eq_true_eq] at hd
  exact hd

theorem step_rounds_distinct (pass : List Nat) (s s1 : server) (i : input) (e : List io_event)
    (hwf : games_wf s.sr_games)
    (hinv : ∀ k, k < s.sr_games.len → ∀ g, s.sr_games.games[k]? = some g →
      g.guesser ≠ g.chooser)
    (hd : select_distinct i = true) (h : step pass s i = some (s1, e)) :
    ∀ k, k < s1.sr_games.len → ∀ g, s1.sr_games.games[k]? = some g →
      g.guesser ≠ g.chooser := by
  obtain ⟨_, hx⟩ := step_games pass s s1 i e hwf h
  have hcases := step_games_cases pass s s1 i e hwf h
  intro k hk g hg
  by_cases hold : k < s.sr_games.len
  · have hlt : k < s.sr_games.games.length := by
      have := hwf.1
      have := hwf.2
      omega
    obtain ⟨g1, hg1, _, a2, a3, _, _⟩ := hx.2 k hold _ (List.getElem?_eq_getElem hlt)
    rw [hg] at hg1
    cases hg1
    rw [a2, a3]
    exact hinv k hold _ (List.getElem?_eq_getElem hlt)
  · rcases hcases with hsame | ⟨r, m, hi, hm, hkind, hlen, hstored⟩
    · omega
    · have hkeq : k = s.sr_games.len := by omega
      subst hkeq
      rw [hstored] at hg
      cases hg
      subst hi
      exact select_distinct_frame r m hd hm hkind

theorem run_rounds_distinct (pass : List Nat) (inputs : List input) (s s1 : server)
    (e : List io_event) (hwf : games_wf s.sr_games)
    (hinv : ∀ k, k < s.sr_games.len → ∀ g, s.sr_games.games[k]? = some g →
      g.guesser ≠ g.chooser)
    (hd : ∀ i ∈ inputs, select_distinct i = true) (h : run pass s inputs = some (s1, e)) :
    ∀ k, k < s1.sr_games.len → ∀ g, s1.sr_games.games[k]? = some g →
      g.guesser ≠ g.chooser := by
  induction inputs generalizing s e with
  | nil =>
    simp only [run, Option.some.injEq, Prod.mk.injEq] at h
    obtain ⟨h1, _⟩ := h
    subst h1
    exact hinv
  | cons i rest ih =>
    simp only [run] at h
    split at h
    · exact absurd h (by simp)
    · rename_i s2 e2 hstep
      split at h
      · exact absurd h (by simp)
      · rename_i s3 e3 hrun
        simp only [Option.some.injEq, Prod.mk.injEq] at h
        obtain ⟨h1, _⟩ := h
        subst h1
        have hd1 := hd i (List.mem_cons_self _ _)
        have hd2 : ∀ j ∈ rest, select_distinct j = true :=
          fun j hj => hd j (List.mem_cons_of_mem _ hj)
        exact ih s2 e3 (step_games pass s s2 i e2 hwf hstep).1
          (step_rounds_distinct pass s s2 i e2 hwf hinv hd1 hstep) hd2 hrun

theorem games_wf_init (serverfd : Int) : games_wf (server_init serverfd).sr_games :=
  ⟨List.length_replicate _ _, Nat.zero_le _⟩

theorem client_select_opponent_distinct (uid : Nat) (opps : List Nat) (typed : List Int)
    (c g : Nat) (h : client_select_opponent uid opps typed = some (c, g)) :
    c = uid ∧ g ≠ uid ∧ g ∈ opps := by
  induction typed with
  | nil => simp [client_select_opponent] at h
  | cons n rest ih =>
    simp only [client_select_opponent] at h
    split at h
    · exact ih h
    · split at h
      · exact ih h
      · split at h
        · rename_i hne hmem
          simp only [Option.some.injEq, Prod.mk.injEq] at h
          obtain ⟨h1, h2⟩ := h
          subst h1 h2
          exact ⟨rfl, hne, hmem⟩
        · exact ih h

theorem select_fresh_frame (s : server) (r : read_result) (m : pl_message)
    (hf : select_fresh s (input.readable r) = true) (hm : pl_msg_read r = some m)
    (hk : m.kind = mk_select_opponent) (hfin : (ge_game_from_msg m).finished = false) :
    (∀ k, ¬active_at s.sr_games (ge_game_from_msg m).chooser k) ∧
    (∀ k, ¬active_at s.sr_games (ge_game_from_msg m).guesser k) := by
  simp only [select_fresh, hm, hk, if_true, hfin, Bool.false_or, Bool.and_eq_true,
    Bool.not_eq_true'] at hf
  exact ⟨(is_in_game_false_iff s _).mp hf.1, (is_in_game_false_iff s _).mp hf.2⟩

/-- Where a round that is active after a step comes from: it was active before
the step, or it is the round a select_opponent frame has just stored. -/
theorem active_at_step (pass : List Nat) (s s1 : server) (i : input) (e : List io_event)
    (hwf : games_wf s.sr_games) (h : step pass s i = some (s1, e)) (id t : Nat)
    (ha : active_at s1.sr_games id t) :
    (t < s.sr_games.len ∧ active_at s.sr_games id t) ∨
    (t = s.sr_games.len ∧ ∃ r m, i = input.readable r ∧ pl_msg_read r = some m ∧
      m.kind = mk_select_opponent ∧ (ge_game_from_msg m).finished = false ∧
      ((ge_game_from_msg m).guesser = id ∨ (ge_game_from_msg m).chooser = id)) := by
  obtain ⟨_, hx⟩ := step_games pass s s1 i e hwf h
  by_cases hold : t < s.sr_games.len
  · exact Or.inl ⟨hold, active_at_of_extend _ _ hwf hx id t hold ha⟩
  · right
    obtain ⟨hlt, g, hg, hfin, hp⟩ := ha
    rcases step_games_cases pass s s1 i e hwf h with hsame | ⟨r, m, hi, hm, hkind, hlen, hst⟩
    · omega
    · have hteq : t = s.sr_games.len := by omega
      subst hteq
      rw [hst] at hg
      cases hg
      exact ⟨rfl, r, m, hi, hm, hkind, hfin, hp⟩

theorem step_one_active (pass : List Nat) (s s1 : server) (i : input) (e : List io_event)
    (hwf : games_wf s.sr_games)
    (hinv : ∀ id j k, active_at s.sr_games id j → active_at s.sr_games id k → j = k)
    (hf : select_fresh s i = true) (h : step pass s i = some (s1, e)) :
    ∀ id j k, active_at s1.sr_games id j → active_at s1.sr_games id k → j = k := by
  intro id j k hj hk
  have hnew : ∀ t u, (t = s.sr_games.len ∧ ∃ r m, i = input.readable r ∧
        pl_msg_read r = some m ∧ m.kind = mk_select_opponent ∧
        (ge_game_from_msg m).finished = false ∧
        ((ge_game_from_msg m).guesser = id ∨ (ge_game_from_msg m).chooser = id)) →
      active_at s.sr_games id u → False := by
    rintro t u ⟨_, r, m, hi, hm, hkind, hfin, hp⟩ hu
    subst hi
    obtain ⟨hc, hg⟩ := select_fresh_frame s r m hf hm hkind hfin
    rcases hp with hp | hp
    · rw [hp] at hg
      exact hg u hu
    · rw [hp] at hc
      exact hc u hu
  rcases active_at_step pass s s1 i e hwf h id j hj with ⟨_, aj⟩ | nj
  · rcases active_at_step pass s s1 i e hwf h id k hk with ⟨_, ak⟩ | nk
    · exact hinv id j k aj ak
    · exact (hnew k j nk aj).elim
  · rcases active_at_step pass s s1 i e hwf h id k hk with ⟨_, ak⟩ | nk
    · exact (hnew j k nj ak).elim
    · rw [nj.1, nk.1]

theorem run_one_active (pass : List Nat) (inputs : List input) (s s1 : server)
    (e : List io_event) (hwf : games_wf s.sr_games)
    (hinv : ∀ id j k, active_at s.sr_games id j → active_at s.sr_games id k → j = k)
    (hf : fresh_run pass s inputs = true) (h : run pass s inputs = some (s1, e)) :
    ∀ id j k, active_at s1.sr_games id j → active_at s1.sr_games id k → j = k := by
  induction inputs generalizing s e with
  | nil =>
    simp only [run, Option.some.injEq, Prod.mk.injEq] at h
    obtain ⟨h1, _⟩ := h
    subst h1
    exact hinv
  | cons i rest ih =>
    simp only [run] at h
    split at h
    · exact absurd h (by simp)
    · rename_i s2 e2 hstep
      split at h
      · exact absurd h (by simp)
      · rename_i s3 e3 hrun
        simp only [Option.some.injEq, Prod.mk.injEq] at h
        obtain ⟨h1, _⟩ := h
        subst h1
        simp only [fresh_run, hstep, Bool.and_eq_true] at hf
        exact ih s2 e3 (step_games pass s s2 i e2 hwf hstep).1
          (step_one_active pass s s2 i e2 hwf hinv hf.1 hstep) hf.2 hrun

/-! ## Lemmas on the loop of `main` -/

theorem accept_loop_users (pass : List Nat) (conns : List (Int × Int × read_result))
    (s s1 : server) (e : List io_event) (hwf : users_wf s.sr_users)
    (h : accept_loop pass s conns = some (s1, e)) :
    users_wf s1.sr_users ∧ s.sr_users.len ≤ s1.sr_users.len := by
  induction conns generalizing s e with
  | nil =>
    simp only [accept_loop] at h
    obtain ⟨w, _, c⟩ := step_users pass s s1 (input.accepted (-1) 0 read_result.error) e hwf h
    exact ⟨w, by rcases c with ⟨c, _⟩ | ⟨c, _⟩ <;> omega⟩
  | cons x rest ih =>
    obtain ⟨fd, poll, r⟩ := x
    simp only [accept_loop] at h
    split at h
    · exact absurd h (by simp)
    · rename_i s2 e2 hstep
      obtain ⟨w2, _, c2⟩ := step_users pass s s2 (input.accepted fd poll r) e2 hwf hstep
      have hle : s.sr_users.len ≤ s2.sr_users.len := by
        rcases c2 with ⟨c, _⟩ | ⟨c, _⟩ <;> omega
      split at h
      · split at h
        · exact absurd h (by simp)
        · rename_i s3 e3 hrest
          simp only [Option.some.injEq, Prod.mk.injEq] at h
          obtain ⟨h1, _⟩ := h
          subst h1
          obtain ⟨w3, l3⟩ := ih s2 e3 w2 hrest
          exact ⟨w3, by omega⟩
      · simp only [Option.some.injEq, Prod.mk.injEq] at h
        obtain ⟨h1, _⟩ := h
        subst h1
        exact ⟨w2, hle⟩

theorem dispatch_loop_users (reads : List read_result) (l : List pollfd) (i : Nat)
    (s s1 : server) (e : List io_event) (hwf : users_wf s.sr_users)
    (h : dispatch_loop reads l i s = some (s1, e)) :
    users_wf s1.sr_users ∧ s.sr_users.len ≤ s1.sr_users.len := by
  induction l generalizing i s e with
  | nil =>
    simp only [dispatch_loop, Option.some.injEq, Prod.mk.injEq] at h
    obtain ⟨h1, _⟩ := h
    subst h1
    exact ⟨hwf, le_refl _⟩
  | cons p rest ih =>
    simp only [dispatch_loop] at h
    split at h
    · exact ih (i + 1) s e hwf h
    · split at h
      · exact absurd h (by simp)
      · rename_i s2 e2 hstep
        obtain ⟨w2, _, c2⟩ := step_users [] s s2
          (input.readable (reads.getD i read_result.error)) e2 hwf hstep
        have hle : s.sr_users.len ≤ s2.sr_users.len := by
          rcases c2 with ⟨c, _⟩ | ⟨c, _⟩ <;> omega
        split at h
        · exact absurd h (by simp)
        · rename_i s3 e3 hrest
          simp only [Option.some.injEq, Prod.mk.injEq] at h
          obtain ⟨h1, _⟩ := h
          subst h1
          obtain ⟨w3, l3⟩ := ih (i + 1) s2 e3 w2 hrest
          exact ⟨w3, by omega⟩

theorem main_iteration_users (pass : List Nat) (env : iteration) (s s1 : server)
    (e : List io_event) (hwf : users_wf s.sr_users)
    (h : main_iteration pass s env = some (s1, e)) :
    users_wf s1.sr_users ∧ s.sr_users.len ≤ s1.sr_users.len := by
  unfold main_iteration at h
  simp only at h
  split at h
  · exact absurd h (by simp)
  · rename_i s2 e2 hacc
    have h2 : users_wf s2.sr_users ∧ s.sr_users.len ≤ s2.sr_users.len := by
      split at hacc
      · split at hacc
        · exact absurd hacc (by simp)
        · split at hacc
          · exact accept_loop_users pass env.accepts
              { s with sr_pfds :=
                ⟨store_revents s.sr_pfds.len s.sr_pfds.pfds env.revents, s.sr_pfds.len⟩ }
              s2 e2 hwf hacc
          · simp only [Option.some.injEq, Prod.mk.injEq] at hacc
            obtain ⟨h1, _⟩ := hacc
            subst h1
            exact ⟨hwf, le_refl _⟩
      · simp only [Option.some.injEq, Prod.mk.injEq] at hacc
        obtain ⟨h1, _⟩ := hacc
        subst h1
        exact ⟨hwf, le_refl _⟩
    split at h
    · exact absurd h (by simp)
    · rename_i s3 e3 hdis
      simp only [Option.some.injEq, Prod.mk.injEq] at h
      obtain ⟨h1, _⟩ := h
      subst h1
      obtain ⟨w3, l3⟩ := dispatch_loop_users env.reads _ 1 s2 s3 e3 h2.1 hdis
      exact ⟨w3, by have := h2.2; omega⟩

theorem main_loop_users (pass : List Nat) (envs : List iteration) (s s1 : server)
    (e : List io_event) (hwf : users_wf s.sr_users)
    (h : main_loop pass s envs = some (s1, e)) :
    users_wf s1.sr_users ∧ s.sr_users.len ≤ s1.sr_users.len := by
  induction envs generalizing s e with
  | nil =>
    simp only [main_loop, Option.some.injEq, Prod.mk.injEq] at h
    obtain ⟨h1, _⟩ := h
    subst h1
    exact ⟨hwf, le_refl _⟩
  | cons env rest ih =>
    simp only [main_loop] at h
    split at h
    · exact absurd h (by simp)
    · rename_i s2 e2 hit
      split at h
      · exact absurd h (by simp)
      · rename_i s3 e3 hrest
        simp only [Option.some.injEq, Prod.mk.injEq] at h
        obtain ⟨h1, _⟩ := h
        subst h1
        obtain ⟨w2, l2⟩ := main_iteration_users pass env s s2 e2 hwf hit
        obtain ⟨w3, l3⟩ := ih s2 e3 w2 hrest
        exact ⟨w3, by omega⟩

theorem accept_loop_full (pass : List Nat) (conns : List (Int × Int × read_result))
    (s : server) (h : MAX_CLIENTS ≤ s.sr_users.len) :
    accept_loop pass s conns = (poll_new_users s true).map (fun s1 => (s1, [])) := by
  have hn : ¬(s.sr_users.len < MAX_CLIENTS) := by omega
  cases conns with
  | nil => simp only [accept_loop, accept_step, hn, if_false]
  | cons x rest =>
    obtain ⟨fd, poll, r⟩ := x
    simp only [accept_loop, accept_step, hn, if_false, false_and]
    cases poll_new_users s true <;> rfl

/-! ## Lemmas on the lookups by ids taken from frames -/

/-- The exit case is undefined exactly when `id - 1` is outside the user array:
the handler has no other check on the id of the frame. -/
theorem case_exit_none_iff (s : server) (m : pl_message) :
    case_exit s m = none ↔ s.sr_users.users.length ≤ size_pred m.id := by
  unfold case_exit
  constructor
  · intro h
    by_contra hlt
    rw [List.getElem?_eq_getElem (by omega)] at h
    exact absurd h (by simp)
  · intro h
    rw [List.getElem?_eq_none h]

/-- The hint case is undefined exactly when `guesser - 1` is outside the user
array: the handler has no other check on the guesser of the record. -/
theorem case_hint_none_iff (s : server) (m : pl_message) :
    case_hint s m = none ↔ s.sr_users.users.length ≤ size_pred (ge_game_from_msg m).guesser := by
  unfold case_hint
  constructor
  · intro h
    by_contra hlt
    simp only [List.getElem?_eq_getElem (show size_pred (ge_game_from_msg m).guesser
      < s.sr_users.users.length by omega)] at h
    exact absurd h (by simp)
  · intro h
    simp only [List.getElem?_eq_none h]

/-! ## Lemmas on `find_game` after an exit -/

/-- After `finish_game` has finished the round in slot `k0`, the active rounds
of any id are its active rounds from before, without slot `k0`. -/
theorem active_at_finish_game (gs : games) (id k0 : Nat) (hfind : find_game gs id = some k0)
    (id2 k : Nat) :
    active_at (finish_game gs id) id2 k ↔ active_at gs id2 k ∧ k ≠ k0 := by
  simp only [finish_game, hfind]
  constructor
  · rintro ⟨hklen, g1, hg1, hf1, hp1⟩
    simp only at hklen
    simp only [List.getElem?_modify, Option.map_eq_map, Option.map_eq_some'] at hg1
    obtain ⟨g, hg, hgeq⟩ := hg1
    by_cases hkk : k0 = k
    · rw [if_pos hkk] at hgeq
      rw [← hgeq] at hf1
      exact absurd hf1 (by simp)
    · rw [if_neg hkk] at hgeq
      subst hgeq
      exact ⟨⟨hklen, g, hg, hf1, hp1⟩, fun h => hkk h.symm⟩
  · rintro ⟨⟨hklen, g, hg, hf, hp⟩, hne⟩
    refine ⟨hklen, g, ?_, hf, hp⟩
    simp only [List.getElem?_modify, hg, Option.map_eq_map, Option.map_some']
    rw [if_neg (fun h => hne h.symm)]

/-- After `finish_game` has finished the round `find_game(id)` returned, in
slot `k0`, `find_game(id)` returns the first later round that was active for `id`. -/
theorem find_game_finish_game (gs : games) (id k0 : Nat) (hfind : find_game gs id = some k0)
    (k : Nat) :
    find_game (finish_game gs id) id = some k ↔
      k0 < k ∧ active_at gs id k ∧ ∀ j, k0 < j → j < k → ¬active_at gs id j := by
  obtain ⟨_, hmin0⟩ := (find_game_some_iff gs id k0).mp hfind
  rw [find_game_some_iff]
  constructor
  · rintro ⟨hact, hmin⟩
    obtain ⟨ha, hne⟩ := (active_at_finish_game gs id k0 hfind id k).mp hact
    have hlt : k0 < k := by
      by_contra hge
      have hk : k < k0 := by omega
      exact hmin0 k hk ha
    refine ⟨hlt, ha, ?_⟩
    intro j hj1 hj2 haj
    exact hmin j hj2 ((active_at_finish_game gs id k0 hfind id j).mpr ⟨haj, by omega⟩)
  · rintro ⟨hlt, ha, hbetween⟩
    refine ⟨(active_at_finish_game gs id k0 hfind id k).mpr ⟨ha, by omega⟩, ?_⟩
    intro j hj haj
    obtain ⟨ha2, hne⟩ := (active_at_finish_game gs id k0 hfind id j).mp haj
    by_cases hjk : j < k0
    · exact hmin0 j hjk ha2
    · exact hbetween j (by omega) hj ha2

/-- When `id` had an active round besides the one `finish_game` finishes,
`find_game(id)` still returns a round afterwards. -/
theorem find_game_finish_game_next (gs : games) (id k0 k : Nat)
    (hfind : find_game gs id = some k0) (ha : active_at gs id k) (hne : k ≠ k0) :
    ∃ k1, find_game (finish_game gs id) id = some k1 ∧ k0 < k1 ∧ k1 ≤ k ∧
      active_at gs id k1 := by
  have hact : active_at (finish_game gs id) id k :=
    (active_at_finish_game gs id k0 hfind id k).mpr ⟨ha, hne⟩
  cases hfg : find_game (finish_game gs id) id with
  | none => exact absurd hact ((find_game_none_iff _ _).mp hfg k)
  | some k1 =>
    obtain ⟨h1, h2, _⟩ := (find_game_finish_game gs id k0 hfind k1).mp hfg
    obtain ⟨_, hmin⟩ := (find_game_some_iff _ _ _).mp hfg
    refine ⟨k1, rfl, h1, ?_, h2⟩
    by_contra hgt
    exact hmin k (by omega) hact

/-! ## Claims -/

/-- C1. Codec round trip: for every envelope (id, kind, payload length) and
every payload of exactly the declared length that fits the payload capacity,
`pl_msg_write` builds a frame of `sizeof(pl_message)` bytes, and `pl_msg_read`
on that frame delivered in full returns a message with the same id, kind and
payload length whose first payload-length bytes are the payload. -/
theorem pl_msg_write_read_roundtrip (bytes : List Nat) (m : pl_message)
    (hid : m.id < SIZE_MOD) (hkind : m.kind < 2 ^ 32)
    (hlen : bytes.length = m.raw_bytes_len)
    (hcap : m.raw_bytes_len ≤ PL_RAW_BYTES_SIZE + 4) :
    ∃ frame read, pl_msg_write bytes m = some frame ∧
      frame.length = sizeof_pl_message ∧
      pl_msg_read (read_result.data frame) = some read ∧
      read.id = m.id ∧ read.kind = m.kind ∧ read.raw_bytes_len = m.raw_bytes_len ∧
      read.raw_bytes.take m.raw_bytes_len = bytes := by
  have hlt : m.raw_bytes_len < SIZE_MOD := by
    have : PL_RAW_BYTES_SIZE + 4 < SIZE_MOD := by decide
    omega
  have hmod : m.raw_bytes_len % SIZE_MOD = m.raw_bytes_len := Nat.mod_eq_of_lt hlt
  have hidm : m.id % SIZE_MOD = m.id := Nat.mod_eq_of_lt hid
  by_cases h0 : 0 < m.raw_bytes_len
  · have hraw : (bytes.take m.raw_bytes_len ++ zero_raw_bytes.drop m.raw_bytes_len).length
        = PL_RAW_BYTES_SIZE + 4 := by
      simp only [List.length_append, List.length_take, List.length_drop,
        length_zero_raw_bytes]
      omega
    refine ⟨pl_message.to_bytes ⟨m.id, m.raw_bytes_len, m.kind,
      bytes.take m.raw_bytes_len ++ zero_raw_bytes.drop m.raw_bytes_len⟩, _,
      ?_, ?_, pl_msg_read_full _ ?_, ?_⟩
    · simp only [pl_msg_write, hmod, hidm, h0, if_true]
      rw [if_pos ⟨by omega, hcap⟩]
    · exact length_to_bytes _ hraw
    · exact length_to_bytes _ hraw
    · rw [of_bytes_to_bytes (pl_message.mk m.id m.raw_bytes_len m.kind
        (bytes.take m.raw_bytes_len ++ zero_raw_bytes.drop m.raw_bytes_len)) hid hlt hkind hraw]
      refine ⟨rfl, rfl, rfl, ?_⟩
      simp only
      rw [List.take_left' (by simp; omega), ← hlen, List.take_length]
  · have hz : m.raw_bytes_len = 0 := by omega
    refine ⟨pl_message.to_bytes ⟨m.id, m.raw_bytes_len, m.kind, zero_raw_bytes⟩, _,
      ?_, ?_, pl_msg_read_full _ ?_, ?_⟩
    · simp only [pl_msg_write, hmod, hidm, h0, if_false]
    · exact length_to_bytes _ length_zero_raw_bytes
    · exact length_to_bytes _ length_zero_raw_bytes
    · rw [of_bytes_to_bytes (pl_message.mk m.id m.raw_bytes_len m.kind zero_raw_bytes)
        hid hlt hkind length_zero_raw_bytes]
      refine ⟨rfl, rfl, rfl, ?_⟩
      have hb : bytes = [] := List.length_eq_zero.mp (by omega)
      simp [hz, hb]

/-- C1 at a concrete input: the password answer of a client. -/
theorem pl_msg_write_read_roundtrip_witness :
    ∃ frame read,
      pl_msg_write [115, 101, 99, 114, 101, 116] (pl_message.lit 0 mk_enter_passwd 6)
        = some frame ∧
      frame.length = sizeof_pl_message ∧
      pl_msg_read (read_result.data frame) = some read ∧
      read.id = (pl_message.lit 0 mk_enter_passwd 6).id ∧
      read.kind = (pl_message.lit 0 mk_enter_passwd 6).kind ∧
      read.raw_bytes_len = (pl_message.lit 0 mk_enter_passwd 6).raw_bytes_len ∧
      read.raw_bytes.take (pl_message.lit 0 mk_enter_passwd 6).raw_bytes_len
        = [115, 101, 99, 114, 101, 116] :=
  pl_msg_write_read_roundtrip [115, 101, 99, 114, 101, 116]
    (pl_message.lit 0 mk_enter_passwd 6) (by decide) (by decide) (by decide) (by decide)

/-- C2. Authentication success: when fewer than `MAX_CLIENTS` sessions are
stored and the answer declares the length of the expected password and
carries exactly its bytes, `authenticate` stores one new session in the first
free slot (id = previous count + 1, the connection's descriptor, not finished),
leaves the rounds alone, and after the password challenge replies with an
`assign_uid` frame whose id field is the new id; what follows are the writes of
`announce_opponents` on the new state. -/
theorem authenticate_success (s : server) (fd poll : Int) (r : read_result)
    (pass : List Nat) (read : pl_message)
    (hwf : users_wf s.sr_users) (hcap : s.sr_users.len < MAX_CLIENTS)
    (hpass : ∀ c ∈ pass, c ≠ 0)
    (hread : pl_poll_msg_read poll r = some read)
    (hlen : read.raw_bytes_len = pass.length)
    (hpay : payload read.raw_bytes read = pass) :
    ∃ s1 rest, authenticate s fd (pass ++ [0]) poll r
        = some (s1, empty_msg_write fd 0 mk_enter_passwd
            :: empty_msg_write fd (s.sr_users.len + 1) mk_assign_uid :: rest) ∧
      s1.sr_users
        = ⟨s.sr_users.users.set s.sr_users.len ⟨s.sr_users.len + 1, fd, false⟩,
            s.sr_users.len + 1⟩ ∧
      s1.sr_games = s.sr_games ∧
      announce_opponents s1 = some rest := by
  have hwf1 := users_wf_store s.sr_users hwf hcap fd
  obtain ⟨pf, hpf⟩ := poll_new_users_eq
    { s with sr_users := ⟨s.sr_users.users.set s.sr_users.len ⟨s.sr_users.len + 1, fd, false⟩,
      s.sr_users.len + 1⟩ } false hwf1
  have hann := announce_opponents_eq
    { s with sr_users := ⟨s.sr_users.users.set s.sr_users.len ⟨s.sr_users.len + 1, fd, false⟩,
      s.sr_users.len + 1⟩, sr_pfds := pf } hwf1
  have hcmp : strncmp (pass ++ [0]) read.raw_bytes pass.length = some 0 := by
    apply strncmp_equal _ _ hpass
    rw [← hlen]
    exact hpay
  have hslot : s.sr_users.len < s.sr_users.users.length := by
    rw [hwf.1]
    exact hcap
  refine ⟨_, _, ?_, ?_, ?_, hann⟩
  · simp only [authenticate, hread, strlen_terminated pass hpass, hlen, ne_eq,
      not_true_eq_false, if_false, hcmp, hslot, if_true, succ_mod_size _ hcap, hpf, hann]
    rfl
  · rfl
  · rfl

/-- C2 at a concrete input: the first connection to the empty server answers
the password `"secret"`. -/
theorem authenticate_success_witness :
    ∃ s1 rest, authenticate (server_init 3) 4 (secret ++ [0]) 1 (password_answer secret)
        = some (s1, empty_msg_write 4 0 mk_enter_passwd
            :: empty_msg_write 4 ((server_init 3).sr_users.len + 1) mk_assign_uid :: rest) ∧
      s1.sr_users
        = ⟨(server_init 3).sr_users.users.set (server_init 3).sr_users.len
            ⟨(server_init 3).sr_users.len + 1, 4, false⟩,
            (server_init 3).sr_users.len + 1⟩ ∧
      s1.sr_games = (server_init 3).sr_games ∧
      announce_opponents s1 = some rest :=
  authenticate_success (server_init 3) 4 1 (password_answer secret) secret
    (pl_message.of_bytes ((pl_msg_write (secret ++ [0])
      (pl_message.lit 0 mk_enter_passwd secret.length)).getD []))
    ⟨by decide, by decide, fun i hi => absurd hi (Nat.not_lt_zero i)⟩
    (by decide) (by decide) (by decide) (by decide) (by decide)

/-- C3. Authentication failure is atomic: when the answer is missing (the
poll times out or fails, or the read fails), or declares a length other than the
length of the expected password, or carries a byte that differs from the
password, `authenticate` makes exactly three output calls (the password
challenge, a `wrong_passwd` frame, and the close of the descriptor) and returns
the server state unchanged. -/
theorem authenticate_failure (s : server) (fd poll : Int) (r : read_result)
    (pass : List Nat) (hpass : ∀ c ∈ pass, c ≠ 0)
    (h : poll ≤ 0 ∨ r = read_result.error ∨
      ∃ read, pl_poll_msg_read poll r = some read ∧
        (read.raw_bytes_len ≠ pass.length ∨
          ∃ i b, i < pass.length ∧ read.raw_bytes[i]? = some b ∧ pass[i]? ≠ some b)) :
    authenticate s fd (pass ++ [0]) poll r
      = some (s, [empty_msg_write fd 0 mk_enter_passwd,
          empty_msg_write fd 0 mk_wrong_passwd, io_event.close fd]) := by
  rcases h with h | h | ⟨read, hread, h⟩
  · simp only [authenticate, pl_poll_msg_read_missing poll r (Or.inl h)]
    rfl
  · simp only [authenticate, pl_poll_msg_read_missing poll r (Or.inr h)]
    rfl
  · by_cases hlen : read.raw_bytes_len = pass.length
    · rcases h with h | ⟨i, b, hi, hb, hne⟩
      · exact absurd hlen h
      · obtain ⟨c, hc, hc0⟩ := strncmp_differ pass read.raw_bytes hpass i b hi hb hne
        simp only [authenticate, hread, strlen_terminated pass hpass, hlen, ne_eq,
          not_true_eq_false, if_false, hc, hc0, not_false_eq_true, if_true]
        rfl
    · simp only [authenticate, hread, strlen_terminated pass hpass, ne_eq, hlen,
        not_false_eq_true, if_true]
      rfl

/-- C3 at a concrete input: the second connection answers a proper start of
the password, `"secre"`, and the registry with one stored session is unchanged. -/
theorem authenticate_failure_witness :
    authenticate
        ⟨3, ⟨List.replicate MAX_CLIENTS ⟨0, 0, 0, false, zero_word⟩, 0⟩,
          ⟨⟨1, 4, false⟩ :: List.replicate 9 ⟨0, 0, false⟩, 1⟩,
          ⟨⟨3, POLLIN, 0⟩ :: ⟨4, POLLIN, 0⟩ :: List.replicate 9 ⟨0, 0, 0⟩, 2⟩⟩
        5 (secret ++ [0]) 1 (password_answer [115, 101, 99, 114, 101])
      = some (⟨3, ⟨List.replicate MAX_CLIENTS ⟨0, 0, 0, false, zero_word⟩, 0⟩,
          ⟨⟨1, 4, false⟩ :: List.replicate 9 ⟨0, 0, false⟩, 1⟩,
          ⟨⟨3, POLLIN, 0⟩ :: ⟨4, POLLIN, 0⟩ :: List.replicate 9 ⟨0, 0, 0⟩, 2⟩⟩,
        [empty_msg_write 5 0 mk_enter_passwd,
          empty_msg_write 5 0 mk_wrong_passwd, io_event.close 5]) :=
  authenticate_failure _ 5 1 (password_answer [115, 101, 99, 114, 101]) secret (by decide)
    (Or.inr (Or.inr ⟨pl_message.of_bytes ((pl_msg_write [115, 101, 99, 114, 101, 0]
      (pl_message.lit 0 mk_enter_passwd 5)).getD []), by decide, Or.inl (by decide)⟩))

/-- C4. Session ids are sequential from 1 and never reused: after every run
of the server from the empty state, the ids carried by the `assign_uid` frames
written so far are 1, 2, ..., session count, in this order (so the k-th
successful authentication is assigned k); the session stored in slot `i` has
id `i + 1`; and no further step decreases the session count or changes the id
stored in a slot in use. -/
theorem session_ids_sequential (pass : List Nat) (serverfd : Int) (inputs : List input)
    (s : server) (e : List io_event)
    (h : run pass (server_init serverfd) inputs = some (s, e)) :
    assigned_ids e = List.range' 1 s.sr_users.len ∧
    (∀ i, i < s.sr_users.len → (s.sr_users.users[i]?).map (fun u => u.id) = some (i + 1)) ∧
    (∀ inp s1 e1, step pass s inp = some (s1, e1) →
      s.sr_users.len ≤ s1.sr_users.len ∧
      ∀ i, i < s.sr_users.len → (s1.sr_users.users[i]?).map (fun u => u.id)
        = (s.sr_users.users[i]?).map (fun u => u.id)) := by
  obtain ⟨hwf, _, _, ha⟩ := run_users pass inputs _ s e (users_wf_init serverfd) h
  refine ⟨?_, hwf.2.2, ?_⟩
  · rw [ha]
    rfl
  · intro inp s1 e1 hstep
    obtain ⟨_, hp, hc⟩ := step_users pass s s1 inp e1 hwf hstep
    refine ⟨?_, hp⟩
    rcases hc with ⟨c, _⟩ | ⟨c, _⟩ <;> omega

/-- C4 at a concrete input: the run of `scenario`, in which two sessions authenticate. -/
theorem session_ids_sequential_witness :
    assigned_ids ((run (secret ++ [0]) (server_init 3) scenario).getD (server_init 3, [])).2
      = List.range' 1
        ((run (secret ++ [0]) (server_init 3) scenario).getD (server_init 3, [])).1.sr_users.len ∧
    (∀ i, i < ((run (secret ++ [0]) (server_init 3) scenario).getD
        (server_init 3, [])).1.sr_users.len →
      (((run (secret ++ [0]) (server_init 3) scenario).getD
        (server_init 3, [])).1.sr_users.users[i]?).map (fun u => u.id) = some (i + 1)) ∧
    (∀ inp s1 e1,
      step (secret ++ [0])
        ((run (secret ++ [0]) (server_init 3) scenario).getD (server_init 3, [])).1 inp
        = some (s1, e1) →
      ((run (secret ++ [0]) (server_init 3) scenario).getD (server_init 3, [])).1.sr_users.len
        ≤ s1.sr_users.len ∧
      ∀ i, i < ((run (secret ++ [0]) (server_init 3) scenario).getD
          (server_init 3, [])).1.sr_users.len →
        (s1.sr_users.users[i]?).map (fun u => u.id)
          = (((run (secret ++ [0]) (server_init 3) scenario).getD
            (server_init 3, [])).1.sr_users.users[i]?).map (fun u => u.id)) :=
  session_ids_sequential (secret ++ [0]) 3 scenario _ _ (by decide)

/-- C5. `announce_opponents`: let E be the ids, in registry order, of the
stored sessions that are neither guesser or chooser of a round that is not
finished nor flagged finished. With fewer than two such sessions no write is
attempted. With N >= 2 of them exactly N writes are attempted, one per session
of E in registry order, each a `show_opponents` frame on that session's
descriptor with that session's id in the id field, the declared length
`N * sizeof(size_t)`, and the same payload: the N ids of E, the recipient's
own included. -/
theorem announce_opponents_spec (s : server) (hwf : users_wf s.sr_users) :
    ((eligible_ids s).length < 2 → announce_opponents s = some []) ∧
    (2 ≤ (eligible_ids s).length →
      announce_opponents s = some ((eligible_users s).map (fun u =>
        io_event.poll_msg_write u.fd (opps_bytes (eligible_ids s))
          (pl_message.lit u.id mk_show_opponents (sizeof_size_t * (eligible_ids s).length))
          PL_DEFAULT_TIMEOUT)) ∧
      (eligible_users s).length = (eligible_ids s).length ∧
      ∀ id, payload (opps_bytes (eligible_ids s))
          (pl_message.lit id mk_show_opponents (sizeof_size_t * (eligible_ids s).length))
        = ((eligible_ids s).map (le_bytes sizeof_size_t)).flatten) := by
  have hle := eligible_length_le s hwf
  have hmod : (sizeof_size_t * (eligible_ids s).length) % SIZE_MOD
      = sizeof_size_t * (eligible_ids s).length := by
    apply Nat.mod_eq_of_lt
    have h1 : sizeof_size_t * MAX_CLIENTS < SIZE_MOD := by decide
    have h2 : sizeof_size_t * (eligible_ids s).length ≤ sizeof_size_t * MAX_CLIENTS :=
      Nat.mul_le_mul_left _ hle
    omega
  have heq := announce_opponents_eq s hwf
  rw [hmod] at heq
  constructor
  · intro hn
    rw [heq, if_pos (by omega)]
  · intro hn
    refine ⟨?_, ?_, ?_⟩
    · rw [heq, if_neg (by omega)]
    · simp [eligible_ids]
    · intro id
      exact take_opps_bytes (eligible_ids s)

/-- C5 at a concrete input: the state after two sessions authenticated. -/
theorem announce_opponents_spec_witness :
    ((eligible_ids (state_after (scenario.take 2))).length < 2 →
      announce_opponents (state_after (scenario.take 2)) = some []) ∧
    (2 ≤ (eligible_ids (state_after (scenario.take 2))).length →
      announce_opponents (state_after (scenario.take 2))
        = some ((eligible_users (state_after (scenario.take 2))).map (fun u =>
          io_event.poll_msg_write u.fd (opps_bytes (eligible_ids (state_after (scenario.take 2))))
            (pl_message.lit u.id mk_show_opponents
              (sizeof_size_t * (eligible_ids (state_after (scenario.take 2))).length))
            PL_DEFAULT_TIMEOUT)) ∧
      (eligible_users (state_after (scenario.take 2))).length
        = (eligible_ids (state_after (scenario.take 2))).length ∧
      ∀ id, payload (opps_bytes (eligible_ids (state_after (scenario.take 2))))
          (pl_message.lit id mk_show_opponents
            (sizeof_size_t * (eligible_ids (state_after (scenario.take 2))).length))
        = ((eligible_ids (state_after (scenario.take 2))).map
            (le_bytes sizeof_size_t)).flatten) :=
  announce_opponents_spec (state_after (scenario.take 2)) (by decide)

/-- C6, the claim as stated fails. (a) After the run of `scenario` up to the
first select_opponent, session 1 sends a second select_opponent with chooser 1
and guesser 2: the round is stored in slot 1, yet `find_game(1)` and
`find_game(2)` return the round in slot 0. (b) After the two authentications,
session 1 sends a select_opponent whose finished flag is set: the round is
stored in slot 0 and `find_game(1)` and `find_game(2)` return `NULL`. -/
theorem select_opponent_not_retrievable :
    (read_step (state_after (scenario.take 3))
        (game_frame 1 mk_select_opponent ⟨0, 2, 1, false, word_of apple⟩)).map
      (fun p => (p.1.sr_games.games[1]?, find_game p.1.sr_games 1, find_game p.1.sr_games 2))
      = some (some ⟨1, 2, 1, false, word_of apple⟩, some 0, some 0) ∧
    (read_step (state_after (scenario.take 2))
        (game_frame 1 mk_select_opponent ⟨0, 2, 1, true, word_of apple⟩)).map
      (fun p => (p.1.sr_games.games[0]?, find_game p.1.sr_games 1, find_game p.1.sr_games 2))
      = some (some ⟨0, 2, 1, true, word_of apple⟩, none, none) := by
  constructor <;> decide

/-- C6, amended. For a select_opponent frame with chooser C and guesser G
whose finished flag is clear, dispatched when neither C nor G is guesser or
chooser of a stored round that is not finished: the round r is stored in the
first free slot, and after every further run of the server in which r is still
not finished, `find_game(C)` and `find_game(G)` return r, and `find_game(X)`
does not return r for any other id X. -/
theorem select_opponent_retrievable (pass : List Nat) (s s1 : server) (m : pl_message)
    (e : List io_event) (hk : m.kind = mk_select_opponent) (hwf : games_wf s.sr_games)
    (hd : dispatch s m = some (s1, e))
    (hfin : (ge_game_from_msg m).finished = false)
    (hC : ∀ k, k < s.sr_games.len → ¬active_at s.sr_games (ge_game_from_msg m).chooser k)
    (hG : ∀ k, k < s.sr_games.len → ¬active_at s.sr_games (ge_game_from_msg m).guesser k) :
    s1.sr_games.games[s.sr_games.len]?
      = some { ge_game_from_msg m with id := s.sr_games.len } ∧
    find_game s1.sr_games (ge_game_from_msg m).chooser = some s.sr_games.len ∧
    find_game s1.sr_games (ge_game_from_msg m).guesser = some s.sr_games.len ∧
    ∀ inputs s2 e2, run pass s1 inputs = some (s2, e2) →
      (s2.sr_games.games[s.sr_games.len]?).map (fun g => g.finished) = some false →
      find_game s2.sr_games (ge_game_from_msg m).chooser = some s.sr_games.len ∧
      find_game s2.sr_games (ge_game_from_msg m).guesser = some s.sr_games.len ∧
      ∀ X, X ≠ (ge_game_from_msg m).chooser → X ≠ (ge_game_from_msg m).guesser →
        find_game s2.sr_games X ≠ some s.sr_games.len := by
  obtain ⟨hwf1, hx1⟩ := dispatch_games s s1 m e hwf hd
  have hd2 := hd
  unfold dispatch at hd2
  rw [if_pos hk] at hd2
  obtain ⟨hlt, hs1, _⟩ := case_select_opponent_result s s1 m e hd2
  have hlen1 : s1.sr_games.len = s.sr_games.len + 1 := by
    rw [hs1]
    exact succ_mod_size_games _ hwf hlt
  have hstored : s1.sr_games.games[s.sr_games.len]?
      = some { ge_game_from_msg m with id := s.sr_games.len } := by
    rw [hs1]
    simp only
    rw [List.getElem?_set_self hlt]
  have hlater : ∀ inputs s2 e2, run pass s1 inputs = some (s2, e2) →
      (s2.sr_games.games[s.sr_games.len]?).map (fun g => g.finished) = some false →
      find_game s2.sr_games (ge_game_from_msg m).chooser = some s.sr_games.len ∧
      find_game s2.sr_games (ge_game_from_msg m).guesser = some s.sr_games.len ∧
      ∀ X, X ≠ (ge_game_from_msg m).chooser → X ≠ (ge_game_from_msg m).guesser →
        find_game s2.sr_games X ≠ some s.sr_games.len := ?_
  · have hnow := hlater [] s1 [] rfl (by rw [hstored]; simp [hfin])
    exact ⟨hstored, hnow.1, hnow.2.1, hlater⟩
  intro inputs s2 e2 hrun hnf
  obtain ⟨hwf2, hx2⟩ := run_games pass inputs s1 s2 e2 hwf1 hrun
  obtain ⟨r2, hr2, _, a2, a3, _, _⟩ := hx2.2 s.sr_games.len (by omega) _ hstored
  simp only at a2 a3
  rw [hr2] at hnf
  simp only [Option.map_some', Option.some.injEq] at hnf
  have hlen2 : s.sr_games.len < s2.sr_games.len := by
    have := hx2.1
    omega
  have hearlier : ∀ id, (∀ k, k < s.sr_games.len → ¬active_at s.sr_games id k) →
      ∀ j, j < s.sr_games.len → ¬active_at s2.sr_games id j := by
    intro id hid j hj ha
    have h1 := active_at_of_extend s1.sr_games s2.sr_games hwf1 hx2 id j (by omega) ha
    exact hid j hj (active_at_of_extend s.sr_games s1.sr_games hwf hx1 id j hj h1)
  refine ⟨?_, ?_, ?_⟩
  · rw [find_game_some_iff]
    exact ⟨⟨hlen2, r2, hr2, hnf, Or.inr a3⟩, hearlier _ hC⟩
  · rw [find_game_some_iff]
    exact ⟨⟨hlen2, r2, hr2, hnf, Or.inl a2⟩, hearlier _ hG⟩
  · intro X hXC hXG hfind
    rw [find_game_some_iff] at hfind
    obtain ⟨⟨_, g, hg, _, hp⟩, _⟩ := hfind
    rw [hr2] at hg
    cases hg
    rcases hp with hp | hp
    · exact hXG (by rw [← hp, a2])
    · exact hXC (by rw [← hp, a3])

/-- C6 amended, at a concrete input: after the two authentications of
`scenario`, session 1 selects session 2. -/
theorem select_opponent_retrievable_witness :
    ((dispatch (state_after (scenario.take 2))
        (frame_of (game_frame 1 mk_select_opponent ⟨0, 2, 1, false, word_of apple⟩))).getD
        (server_init 3, [])).1.sr_games.games[(state_after (scenario.take 2)).sr_games.len]?
      = some { ge_game_from_msg
          (frame_of (game_frame 1 mk_select_opponent ⟨0, 2, 1, false, word_of apple⟩)) with
        id := (state_after (scenario.take 2)).sr_games.len } ∧
    find_game ((dispatch (state_after (scenario.take 2))
        (frame_of (game_frame 1 mk_select_opponent ⟨0, 2, 1, false, word_of apple⟩))).getD
        (server_init 3, [])).1.sr_games
        (ge_game_from_msg
          (frame_of (game_frame 1 mk_select_opponent ⟨0, 2, 1, false, word_of apple⟩))).chooser
      = some (state_after (scenario.take 2)).sr_games.len ∧
    find_game ((dispatch (state_after (scenario.take 2))
        (frame_of (game_frame 1 mk_select_opponent ⟨0, 2, 1, false, word_of apple⟩))).getD
        (server_init 3, [])).1.sr_games
        (ge_game_from_msg
          (frame_of (game_frame 1 mk_select_opponent ⟨0, 2, 1, false, word_of apple⟩))).guesser
      = some (state_after (scenario.take 2)).sr_games.len ∧
    ∀ inputs s2 e2,
      run (secret ++ [0]) ((dispatch (state_after (scenario.take 2))
        (frame_of (game_frame 1 mk_select_opponent ⟨0, 2, 1, false, word_of apple⟩))).getD
        (server_init 3, [])).1 inputs = some (s2, e2) →
      (s2.sr_games.games[(state_after (scenario.take 2)).sr_games.len]?).map
        (fun g => g.finished) = some false →
      find_game s2.sr_games (ge_game_from_msg
          (frame_of (game_frame 1 mk_select_opponent ⟨0, 2, 1, false, word_of apple⟩))).chooser
        = some (state_after (scenario.take 2)).sr_games.len ∧
      find_game s2.sr_games (ge_game_from_msg
          (frame_of (game_frame 1 mk_select_opponent ⟨0, 2, 1, false, word_of apple⟩))).guesser
        = some (state_after (scenario.take 2)).sr_games.len ∧
      ∀ X, X ≠ (ge_game_from_msg
          (frame_of (game_frame 1 mk_select_opponent ⟨0, 2, 1, false, word_of apple⟩))).chooser →
        X ≠ (ge_game_from_msg
          (frame_of (game_frame 1 mk_select_opponent ⟨0, 2, 1, false, word_of apple⟩))).guesser →
        find_game s2.sr_games X ≠ some (state_after (scenario.take 2)).sr_games.len :=
  select_opponent_retrievable (secret ++ [0]) (state_after (scenario.take 2))
    ((dispatch (state_after (scenario.take 2))
        (frame_of (game_frame 1 mk_select_opponent ⟨0, 2, 1, false, word_of apple⟩))).getD
        (server_init 3, [])).1
    (frame_of (game_frame 1 mk_select_opponent ⟨0, 2, 1, false, word_of apple⟩))
    ((dispatch (state_after (scenario.take 2))
        (frame_of (game_frame 1 mk_select_opponent ⟨0, 2, 1, false, word_of apple⟩))).getD
        (server_init 3, [])).2
    (by decide) (by decide) (by decide) (by decide) (by decide) (by decide)

/-- C7, the claim as stated fails. After the run of `scenario` up to the
select_opponent, round 0 is stored with guesser 2 (descriptor 5) and chooser 1
(descriptor 4). A guess frame for round 0 with the right word whose record
names session 1 as guesser and as chooser makes the server write both
`correct_guess` frames to descriptor 4: the guesser of the round gets none. -/
theorem guess_peers_from_frame :
    (state_after (scenario.take 3)).sr_games.games[0]?
      = some ⟨0, 2, 1, false, word_of apple⟩ ∧
    (state_after (scenario.take 3)).sr_users.users[1]? = some ⟨2, 5, false⟩ ∧
    read_step (state_after (scenario.take 3))
        (game_frame 2 mk_guess ⟨0, 1, 1, false, word_of apple⟩)
      = some (state_after (scenario.take 3),
        [io_event.poll_msg_write 4 [] (pl_message.lit 1 mk_correct_guess 0) PL_DEFAULT_TIMEOUT,
          io_event.poll_msg_write 4 [] (pl_message.lit 1 mk_correct_guess 0)
            PL_DEFAULT_TIMEOUT]) := by
  decide

/-- C7, amended. For a guess frame whose record names the round slot of a
stored round r and names a guesser and a chooser whose slots lie in the user
array, both words being terminated strings: if the submitted word equals the
secret word of r as a string, the server writes two `correct_guess` frames with
no payload and declared length 0, one to the guesser and one to the chooser
named in the submitted record; otherwise it writes two `wrong_guess` frames to
the same two, whose payload is the submitted record with the submitted word.
The state is unchanged in both cases. -/
theorem guess_outcome (s : server) (m : pl_message) (r : ge_game) (ug uc : user)
    (hk : m.kind = mk_guess)
    (hlen : m.raw_bytes.length = PL_RAW_BYTES_SIZE + 4)
    (hr : s.sr_games.games[(ge_game_from_msg m).id]? = some r)
    (hug : s.sr_users.users[size_pred (ge_game_from_msg m).guesser]? = some ug)
    (huc : s.sr_users.users[size_pred (ge_game_from_msg m).chooser]? = some uc)
    (hz : 0 ∈ (ge_game_from_msg m).word) (hzr : 0 ∈ r.word) :
    (c_string (ge_game_from_msg m).word = c_string r.word →
      dispatch s m = some (s,
        [io_event.poll_msg_write ug.fd []
            (pl_message.lit (ge_game_from_msg m).guesser mk_correct_guess 0) PL_DEFAULT_TIMEOUT,
          io_event.poll_msg_write uc.fd []
            (pl_message.lit (ge_game_from_msg m).chooser mk_correct_guess 0)
            PL_DEFAULT_TIMEOUT])) ∧
    (c_string (ge_game_from_msg m).word ≠ c_string r.word →
      dispatch s m = some (s,
        [io_event.poll_msg_write ug.fd (ge_game_from_msg m).to_bytes
            (pl_message.lit (ge_game_from_msg m).guesser mk_wrong_guess sizeof_ge_game)
            PL_DEFAULT_TIMEOUT,
          io_event.poll_msg_write uc.fd (ge_game_from_msg m).to_bytes
            (pl_message.lit (ge_game_from_msg m).chooser mk_wrong_guess sizeof_ge_game)
            PL_DEFAULT_TIMEOUT]) ∧
      ∀ id, payload (ge_game_from_msg m).to_bytes (pl_message.lit id mk_wrong_guess sizeof_ge_game)
        = (ge_game_from_msg m).to_bytes) := by
  obtain ⟨c, hc, hiff⟩ := strcmp_terminated _ _ hz hzr
  rw [dispatch_guess s m hk]
  constructor
  · intro heq
    have hc0 : c = 0 := hiff.mpr heq
    subst hc0
    simp only [case_guess, hr, hc, ne_eq, not_true_eq_false, if_false,
      send_game_msg_eq s _ _ _ _ ug uc hug huc, Option.map_some']
  · intro hne
    have hc0 : c ≠ 0 := fun h => hne (hiff.mp h)
    refine ⟨?_, ?_⟩
    · simp only [case_guess, hr, hc, ne_eq, hc0, not_false_eq_true, if_true,
        send_game_msg_eq s _ _ _ _ ug uc hug huc, Option.map_some']
    · intro id
      have hl := length_ge_game_to_bytes _ (length_word_from_msg m hlen)
      simp only [payload, pl_message.lit]
      rw [← hl, List.take_length]

/-- C7 amended, at a concrete input: session 2 guesses `"apple"` in the run of `scenario`. -/
theorem guess_outcome_witness :
    (c_string (ge_game_from_msg
        (frame_of (game_frame 2 mk_guess ⟨0, 2, 1, false, word_of apple⟩))).word
        = c_string (ge_game.mk 0 2 1 false (word_of apple)).word →
      dispatch (state_after (scenario.take 3))
          (frame_of (game_frame 2 mk_guess ⟨0, 2, 1, false, word_of apple⟩))
        = some (state_after (scenario.take 3),
          [io_event.poll_msg_write (user.mk 2 5 false).fd []
              (pl_message.lit (ge_game_from_msg
                (frame_of (game_frame 2 mk_guess ⟨0, 2, 1, false, word_of apple⟩))).guesser
                mk_correct_guess 0) PL_DEFAULT_TIMEOUT,
            io_event.poll_msg_write (user.mk 1 4 false).fd []
              (pl_message.lit (ge_game_from_msg
                (frame_of (game_frame 2 mk_guess ⟨0, 2, 1, false, word_of apple⟩))).chooser
                mk_correct_guess 0) PL_DEFAULT_TIMEOUT])) ∧
    (c_string (ge_game_from_msg
        (frame_of (game_frame 2 mk_guess ⟨0, 2, 1, false, word_of apple⟩))).word
        ≠ c_string (ge_game.mk 0 2 1 false (word_of apple)).word →
      dispatch (state_after (scenario.take 3))
          (frame_of (game_frame 2 mk_guess ⟨0, 2, 1, false, word_of apple⟩))
        = some (state_after (scenario.take 3),
          [io_event.poll_msg_write (user.mk 2 5 false).fd
              (ge_game_from_msg
                (frame_of (game_frame 2 mk_guess ⟨0, 2, 1, false, word_of apple⟩))).to_bytes
              (pl_message.lit (ge_game_from_msg
                (frame_of (game_frame 2 mk_guess ⟨0, 2, 1, false, word_of apple⟩))).guesser
                mk_wrong_guess sizeof_ge_game) PL_DEFAULT_TIMEOUT,
            io_event.poll_msg_write (user.mk 1 4 false).fd
              (ge_game_from_msg
                (frame_of (game_frame 2 mk_guess ⟨0, 2, 1, false, word_of apple⟩))).to_bytes
              (pl_message.lit (ge_game_from_msg
                (frame_of (game_frame 2 mk_guess ⟨0, 2, 1, false, word_of apple⟩))).chooser
                mk_wrong_guess sizeof_ge_game) PL_DEFAULT_TIMEOUT]) ∧
      ∀ id, payload (ge_game_from_msg
            (frame_of (game_frame 2 mk_guess ⟨0, 2, 1, false, word_of apple⟩))).to_bytes
          (pl_message.lit id mk_wrong_guess sizeof_ge_game)
        = (ge_game_from_msg
            (frame_of (game_frame 2 mk_guess ⟨0, 2, 1, false, word_of apple⟩))).to_bytes) :=
  guess_outcome (state_after (scenario.take 3))
    (frame_of (game_frame 2 mk_guess ⟨0, 2, 1, false, word_of apple⟩))
    ⟨0, 2, 1, false, word_of apple⟩ ⟨2, 5, false⟩ ⟨1, 4, false⟩
    (by decide) (by decide) (by decide) (by decide) (by decide) (by decide) (by decide)

/-- C8, the claim as stated fails. In the run of `scenario` up to the
select_opponent, followed by a second select_opponent of session 1 with
guesser 2, session 1 is chooser of the rounds in slots 0 and 1. After its exit
frame is dispatched, session 1 and round 0 are flagged finished, round 1 is
not, and `find_game(1)` returns round 1. -/
theorem exit_leaves_second_round :
    (run (secret ++ [0]) (server_init 3)
        (scenario.take 3 ++
          [input.readable (game_frame 1 mk_select_opponent ⟨0, 2, 1, false, word_of apple⟩),
            input.readable (delivered [0] (pl_message.lit 1 mk_exit 0))])).map
      (fun p => ((p.1.sr_users.users[0]?).map (fun u => u.finished_game),
        (p.1.sr_games.games[0]?).map (fun g => g.finished),
        (p.1.sr_games.games[1]?).map (fun g => g.finished),
        find_game p.1.sr_games 1))
      = some (some true, some true, some false, some 1) := by
  decide

/-- C8, amended. For an exit frame whose id field X names a slot of the user
array: the server closes the descriptor stored there, flags that session
finished, and flags finished the round `find_game(X)` returned before, if any.
When X was guesser or chooser of at most one stored round that was not
finished, `find_game(X)` returns `NULL` afterwards. Otherwise it returns X's
next round that is not finished: when `find_game(X)` returned the round in slot
`k0` before, it returns `k` afterwards exactly when `k` is the first slot after
`k0` whose round was not finished and had X as guesser or chooser, and there is
such a slot as soon as X had such a round in a slot other than `k0`. -/
theorem exit_spec (s : server) (m : pl_message) (u : user) (hk : m.kind = mk_exit)
    (hu : s.sr_users.users[size_pred m.id]? = some u) :
    ∃ s1, dispatch s m = some (s1, [io_event.close u.fd]) ∧
      (s1.sr_users.users[size_pred m.id]?).map (fun v => v.finished_game) = some true ∧
      (∀ k, find_game s.sr_games m.id = some k →
        (s1.sr_games.games[k]?).map (fun g => g.finished) = some true) ∧
      ((∀ j, j < s.sr_games.len → ∀ k, k < s.sr_games.len →
          active_at s.sr_games m.id j → active_at s.sr_games m.id k → j = k) →
        find_game s1.sr_games m.id = none) ∧
      (∀ k0, find_game s.sr_games m.id = some k0 → ∀ k,
        (find_game s1.sr_games m.id = some k ↔
          k0 < k ∧ active_at s.sr_games m.id k ∧
            ∀ j, k0 < j → j < k → ¬active_at s.sr_games m.id j)) ∧
      (∀ k0 k, find_game s.sr_games m.id = some k0 → active_at s.sr_games m.id k → k ≠ k0 →
        ∃ k1, find_game s1.sr_games m.id = some k1 ∧ k0 < k1 ∧ k1 ≤ k ∧
          active_at s.sr_games m.id k1) := by
  have hlt : size_pred m.id < s.sr_users.users.length := by
    by_contra hge
    rw [List.getElem?_eq_none (by omega)] at hu
    exact absurd hu (by simp)
  refine ⟨{ s with
      sr_users := ⟨s.sr_users.users.set (size_pred m.id) { u with finished_game := true },
        s.sr_users.len⟩,
      sr_games := finish_game s.sr_games m.id }, ?_, ?_, ?_, ?_,
    fun k0 hfind k => find_game_finish_game s.sr_games m.id k0 hfind k,
    fun k0 k hfind ha hne => find_game_finish_game_next s.sr_games m.id k0 k hfind ha hne⟩
  · rw [dispatch_exit s m hk]
    simp only [case_exit, hu]
  · simp only
    rw [List.getElem?_set_self hlt]
    rfl
  · intro k hfind
    obtain ⟨⟨_, g, hg, _⟩, _⟩ := (find_game_some_iff _ _ _).mp hfind
    simp only [finish_game, hfind, List.getElem?_modify, hg, Option.map_eq_map,
      Option.map_some', if_true]
  · intro huniq
    simp only
    rw [find_game_none_iff]
    intro k hact
    cases hfind : find_game s.sr_games m.id with
    | none =>
      simp only [finish_game, hfind] at hact
      exact (find_game_none_iff _ _).mp hfind k hact
    | some k0 =>
      have hk0 := ((find_game_some_iff _ _ _).mp hfind).1
      simp only [finish_game, hfind] at hact
      obtain ⟨hklen, g1, hg1, hf1, hp1⟩ := hact
      simp only at hklen
      simp only [List.getElem?_modify, Option.map_eq_map, Option.map_eq_some'] at hg1
      obtain ⟨g, hg, hgeq⟩ := hg1
      by_cases hkk : k0 = k
      · rw [if_pos hkk] at hgeq
        rw [← hgeq] at hf1
        exact absurd hf1 (by simp)
      · rw [if_neg hkk] at hgeq
        subst hgeq
        exact hkk (huniq k0 hk0.1 k hklen hk0 ⟨hklen, g, hg, hf1, hp1⟩)

/-- C8 amended, at a concrete input: session 1 exits after the select_opponent of `scenario`. -/
theorem exit_spec_witness :
    ∃ s1, dispatch (state_after (scenario.take 3))
          (frame_of (delivered [0] (pl_message.lit 1 mk_exit 0)))
        = some (s1, [io_event.close (user.mk 1 4 false).fd]) ∧
      (s1.sr_users.users[size_pred
          (frame_of (delivered [0] (pl_message.lit 1 mk_exit 0))).id]?).map
        (fun v => v.finished_game) = some true ∧
      (∀ k, find_game (state_after (scenario.take 3)).sr_games
          (frame_of (delivered [0] (pl_message.lit 1 mk_exit 0))).id = some k →
        (s1.sr_games.games[k]?).map (fun g => g.finished) = some true) ∧
      ((∀ j, j < (state_after (scenario.take 3)).sr_games.len →
          ∀ k, k < (state_after (scenario.take 3)).sr_games.len →
          active_at (state_after (scenario.take 3)).sr_games
            (frame_of (delivered [0] (pl_message.lit 1 mk_exit 0))).id j →
          active_at (state_after (scenario.take 3)).sr_games
            (frame_of (delivered [0] (pl_message.lit 1 mk_exit 0))).id k → j = k) →
        find_game s1.sr_games (frame_of (delivered [0] (pl_message.lit 1 mk_exit 0))).id
          = none) ∧
      (∀ k0, find_game (state_after (scenario.take 3)).sr_games
          (frame_of (delivered [0] (pl_message.lit 1 mk_exit 0))).id = some k0 → ∀ k,
        (find_game s1.sr_games (frame_of (delivered [0] (pl_message.lit 1 mk_exit 0))).id = some k ↔
          k0 < k ∧
          active_at (state_after (scenario.take 3)).sr_games
            (frame_of (delivered [0] (pl_message.lit 1 mk_exit 0))).id k ∧
            ∀ j, k0 < j → j < k →
              ¬active_at (state_after (scenario.take 3)).sr_games
                (frame_of (delivered [0] (pl_message.lit 1 mk_exit 0))).id j)) ∧
      (∀ k0 k, find_game (state_after (scenario.take 3)).sr_games
          (frame_of (delivered [0] (pl_message.lit 1 mk_exit 0))).id = some k0 →
        active_at (state_after (scenario.take 3)).sr_games
          (frame_of (delivered [0] (pl_message.lit 1 mk_exit 0))).id k → k ≠ k0 →
        ∃ k1, find_game s1.sr_games (frame_of (delivered [0] (pl_message.lit 1 mk_exit 0))).id = some k1 ∧
          k0 < k1 ∧ k1 ≤ k ∧
          active_at (state_after (scenario.take 3)).sr_games
            (frame_of (delivered [0] (pl_message.lit 1 mk_exit 0))).id k1) :=
  exit_spec (state_after (scenario.take 3))
    (frame_of (delivered [0] (pl_message.lit 1 mk_exit 0))) ⟨1, 4, false⟩
    (by decide) (by decide)

/-- C9. End-to-end scenario from the empty server state with the expected
password `"secret"`. The first connection (descriptor 4) answers `"secret"` and
is sent the challenge and `assign_uid` with id 1, and nothing else. The second
(descriptor 5) is sent the challenge and `assign_uid` with id 2, then both
sessions are sent `show_opponents` with the payload [1, 2]. Session 1 sends
select_opponent with chooser 1, guesser 2 and the word `"apple"`, and both
sessions are sent a `select_opponent` frame whose record has id 0, guesser 2,
chooser 1 and an all-zero word. Session 2 sends guess with that record and the
word `"apple"`, and both sessions are sent `correct_guess` with no payload. -/
theorem end_to_end_scenario :
    step (secret ++ [0]) (server_init 3) (input.accepted 4 1 (password_answer secret))
      = some (state_after (scenario.take 1),
        [empty_msg_write 4 0 mk_enter_passwd, empty_msg_write 4 1 mk_assign_uid]) ∧
    step (secret ++ [0]) (state_after (scenario.take 1))
        (input.accepted 5 1 (password_answer secret))
      = some (state_after (scenario.take 2),
        [empty_msg_write 5 0 mk_enter_passwd, empty_msg_write 5 2 mk_assign_uid,
          io_event.poll_msg_write 4 (opps_bytes [1, 2])
            (pl_message.lit 1 mk_show_opponents 16) PL_DEFAULT_TIMEOUT,
          io_event.poll_msg_write 5 (opps_bytes [1, 2])
            (pl_message.lit 2 mk_show_opponents 16) PL_DEFAULT_TIMEOUT]) ∧
    payload (opps_bytes [1, 2]) (pl_message.lit 1 mk_show_opponents 16)
      = le_bytes 8 1 ++ le_bytes 8 2 ∧
    step (secret ++ [0]) (state_after (scenario.take 2))
        (input.readable (game_frame 1 mk_select_opponent ⟨0, 2, 1, false, word_of apple⟩))
      = some (state_after (scenario.take 3),
        [io_event.poll_msg_write 5 (ge_game.to_bytes ⟨0, 2, 1, false, zero_word⟩)
            (pl_message.lit 2 mk_select_opponent sizeof_ge_game) PL_DEFAULT_TIMEOUT,
          io_event.poll_msg_write 4 (ge_game.to_bytes ⟨0, 2, 1, false, zero_word⟩)
            (pl_message.lit 1 mk_select_opponent sizeof_ge_game) PL_DEFAULT_TIMEOUT]) ∧
    (state_after (scenario.take 3)).sr_games.games[0]?
      = some ⟨0, 2, 1, false, word_of apple⟩ ∧
    step (secret ++ [0]) (state_after (scenario.take 3))
        (input.readable (game_frame 2 mk_guess ⟨0, 2, 1, false, word_of apple⟩))
      = some (state_after scenario,
        [io_event.poll_msg_write 5 [] (pl_message.lit 2 mk_correct_guess 0)
            PL_DEFAULT_TIMEOUT,
          io_event.poll_msg_write 4 [] (pl_message.lit 1 mk_correct_guess 0)
            PL_DEFAULT_TIMEOUT]) := by
  refine ⟨?_, ?_, ?_, ?_, ?_, ?_⟩ <;> decide

/-- C10. Round-started broadcast: for a select_opponent frame whose sender id
is the chooser or the guesser of its record and whose finished flag is clear,
received while the round registry has a free slot and the guesser and chooser
name slots of the user array, the server stores the record in the first free
slot with id = number of rounds stored before (the id in the frame is
overwritten) and with the word of the frame, and writes two `select_opponent`
frames, to the guesser and to the chooser, whose payload is the stored record
(same id, guesser, chooser, finished flag) with all 55 bytes of the word zero. -/
theorem select_opponent_broadcast (s : server) (m : pl_message) (ug uc : user)
    (hk : m.kind = mk_select_opponent) (hwf : games_wf s.sr_games)
    (hfree : s.sr_games.len < MAX_CLIENTS)
    (hsender : m.id = (ge_game_from_msg m).chooser ∨ m.id = (ge_game_from_msg m).guesser)
    (hfin : (ge_game_from_msg m).finished = false)
    (hug : s.sr_users.users[size_pred (ge_game_from_msg m).guesser]? = some ug)
    (huc : s.sr_users.users[size_pred (ge_game_from_msg m).chooser]? = some uc) :
    ∃ s1, dispatch s m = some (s1,
        [io_event.poll_msg_write ug.fd
            (ge_game.to_bytes ⟨s.sr_games.len, (ge_game_from_msg m).guesser,
              (ge_game_from_msg m).chooser, false, zero_word⟩)
            (pl_message.lit (ge_game_from_msg m).guesser mk_select_opponent sizeof_ge_game)
            PL_DEFAULT_TIMEOUT,
          io_event.poll_msg_write uc.fd
            (ge_game.to_bytes ⟨s.sr_games.len, (ge_game_from_msg m).guesser,
              (ge_game_from_msg m).chooser, false, zero_word⟩)
            (pl_message.lit (ge_game_from_msg m).chooser mk_select_opponent sizeof_ge_game)
            PL_DEFAULT_TIMEOUT]) ∧
      s1.sr_games.len = s.sr_games.len + 1 ∧
      s1.sr_games.games = s.sr_games.games.set s.sr_games.len
        ⟨s.sr_games.len, (ge_game_from_msg m).guesser, (ge_game_from_msg m).chooser, false,
          (ge_game_from_msg m).word⟩ ∧
      s1.sr_games.games[s.sr_games.len]?
        = some ⟨s.sr_games.len, (ge_game_from_msg m).guesser, (ge_game_from_msg m).chooser,
          false, (ge_game_from_msg m).word⟩ ∧
      s1.sr_users = s.sr_users ∧
      ∀ id, payload
          (ge_game.to_bytes ⟨s.sr_games.len, (ge_game_from_msg m).guesser,
            (ge_game_from_msg m).chooser, false, zero_word⟩)
          (pl_message.lit id mk_select_opponent sizeof_ge_game)
        = ge_game.to_bytes ⟨s.sr_games.len, (ge_game_from_msg m).guesser,
            (ge_game_from_msg m).chooser, false, zero_word⟩ := by
  have hlt : s.sr_games.len < s.sr_games.games.length := by
    rw [hwf.1]
    exact hfree
  have hmod := succ_mod_size_games _ hwf hlt
  have hauth : ¬(((ge_game_from_msg m).chooser ≠ m.id ∧ (ge_game_from_msg m).guesser ≠ m.id) ∨
      false = true) := by
    rintro (⟨h1, h2⟩ | h)
    · rcases hsender with h3 | h3
      · exact h1 h3.symm
      · exact h2 h3.symm
    · exact absurd h (by simp)
  refine ⟨{ s with sr_games :=
      ⟨s.sr_games.games.set s.sr_games.len
        ⟨s.sr_games.len, (ge_game_from_msg m).guesser, (ge_game_from_msg m).chooser, false,
          (ge_game_from_msg m).word⟩, s.sr_games.len + 1⟩ }, ?_, rfl, rfl, ?_, rfl, ?_⟩
  · rw [dispatch_select_opponent s m hk]
    simp only [case_select_opponent, hlt, if_true, hauth, if_false, hmod, hfin]
    have hsend := send_game_msg_eq
      { s with sr_games :=
        ⟨s.sr_games.games.set s.sr_games.len
          ⟨s.sr_games.len, (ge_game_from_msg m).guesser, (ge_game_from_msg m).chooser, false,
            (ge_game_from_msg m).word⟩, s.sr_games.len + 1⟩ }
      ⟨s.sr_games.len, (ge_game_from_msg m).guesser, (ge_game_from_msg m).chooser, false,
        (ge_game_from_msg m).word⟩
      mk_select_opponent
      (ge_game.to_bytes ⟨s.sr_games.len, (ge_game_from_msg m).guesser,
        (ge_game_from_msg m).chooser, false, zero_word⟩)
      sizeof_ge_game ug uc hug huc
    rw [hsend]
    rfl
  · simp only
    rw [List.getElem?_set_self hlt]
  · intro id
    have hl := length_ge_game_to_bytes ⟨s.sr_games.len, (ge_game_from_msg m).guesser,
      (ge_game_from_msg m).chooser, false, zero_word⟩ (by simp [zero_word])
    simp only [payload, pl_message.lit]
    rw [← hl, List.take_length]

/-- C10 at a concrete input: session 1 selects session 2 in the run of `scenario`. -/
theorem select_opponent_broadcast_witness :
    ∃ s1, dispatch (state_after (scenario.take 2))
        (frame_of (game_frame 1 mk_select_opponent ⟨0, 2, 1, false, word_of apple⟩))
      = some (s1,
        [io_event.poll_msg_write (user.mk 2 5 false).fd
            (ge_game.to_bytes ⟨(state_after (scenario.take 2)).sr_games.len, (ge_game_from_msg
        (frame_of (game_frame 1 mk_select_opponent ⟨0, 2, 1, false, word_of apple⟩))).guesser,
              (ge_game_from_msg
        (frame_of (game_frame 1 mk_select_opponent ⟨0, 2, 1, false, word_of apple⟩))).chooser, false, zero_word⟩)
            (pl_message.lit (ge_game_from_msg
        (frame_of (game_frame 1 mk_select_opponent ⟨0, 2, 1, false, word_of apple⟩))).guesser mk_select_opponent sizeof_ge_game)
            PL_DEFAULT_TIMEOUT,
          io_event.poll_msg_write (user.mk 1 4 false).fd
            (ge_game.to_bytes ⟨(state_after (scenario.take 2)).sr_games.len, (ge_game_from_msg
        (frame_of (game_frame 1 mk_select_opponent ⟨0, 2, 1, false, word_of apple⟩))).guesser,
              (ge_game_from_msg
        (frame_of (game_frame 1 mk_select_opponent ⟨0, 2, 1, false, word_of apple⟩))).chooser, false, zero_word⟩)
            (pl_message.lit (ge_game_from_msg
        (frame_of (game_frame 1 mk_select_opponent ⟨0, 2, 1, false, word_of apple⟩))).chooser mk_select_opponent sizeof_ge_game)
            PL_DEFAULT_TIMEOUT]) ∧
      s1.sr_games.len = (state_after (scenario.take 2)).sr_games.len + 1 ∧
      s1.sr_games.games = (state_after (scenario.take 2)).sr_games.games.set (state_after (scenario.take 2)).sr_games.len
        ⟨(state_after (scenario.take 2)).sr_games.len, (ge_game_from_msg
        (frame_of (game_frame 1 mk_select_opponent ⟨0, 2, 1, false, word_of apple⟩))).guesser, (ge_game_from_msg
        (frame_of (game_frame 1 mk_select_opponent ⟨0, 2, 1, false, word_of apple⟩))).chooser, false,
          (ge_game_from_msg
        (frame_of (game_frame 1 mk_select_opponent ⟨0, 2, 1, false, word_of apple⟩))).word⟩ ∧
      s1.sr_games.games[(state_after (scenario.take 2)).sr_games.len]?
        = some ⟨(state_after (scenario.take 2)).sr_games.len, (ge_game_from_msg
        (frame_of (game_frame 1 mk_select_opponent ⟨0, 2, 1, false, word_of apple⟩))).guesser, (ge_game_from_msg
        (frame_of (game_frame 1 mk_select_opponent ⟨0, 2, 1, false, word_of apple⟩))).chooser,
          false, (ge_game_from_msg
        (frame_of (game_frame 1 mk_select_opponent ⟨0, 2, 1, false, word_of apple⟩))).word⟩ ∧
      s1.sr_users = (state_after (scenario.take 2)).sr_users ∧
      ∀ id, payload
          (ge_game.to_bytes ⟨(state_after (scenario.take 2)).sr_games.len, (ge_game_from_msg
        (frame_of (game_frame 1 mk_select_opponent ⟨0, 2, 1, false, word_of apple⟩))).guesser,
            (ge_game_from_msg
        (frame_of (game_frame 1 mk_select_opponent ⟨0, 2, 1, false, word_of apple⟩))).chooser, false, zero_word⟩)
          (pl_message.lit id mk_select_opponent sizeof_ge_game)
        = ge_game.to_bytes ⟨(state_after (scenario.take 2)).sr_games.len, (ge_game_from_msg
        (frame_of (game_frame 1 mk_select_opponent ⟨0, 2, 1, false, word_of apple⟩))).guesser,
            (ge_game_from_msg
        (frame_of (game_frame 1 mk_select_opponent ⟨0, 2, 1, false, word_of apple⟩))).chooser, false, zero_word⟩ :=
  select_opponent_broadcast (state_after (scenario.take 2))
    (frame_of (game_frame 1 mk_select_opponent ⟨0, 2, 1, false, word_of apple⟩))
    ⟨2, 5, false⟩ ⟨1, 4, false⟩
    (by decide) (by decide) (by decide) (by decide) (by decide) (by decide) (by decide)

/-- C11. Unauthorised select_opponent: for a select_opponent frame whose
sender id is neither the chooser nor the guesser of its record, received while
the round registry has a free slot, the server stores the record in the first
free slot with id = previous round count, the round count grows by exactly
one, no output call is made, and the user registry is unchanged. -/
theorem select_opponent_unauthorised (s : server) (m : pl_message)
    (hk : m.kind = mk_select_opponent) (hwf : games_wf s.sr_games)
    (hfree : s.sr_games.len < MAX_CLIENTS)
    (hc : (ge_game_from_msg m).chooser ≠ m.id) (hg : (ge_game_from_msg m).guesser ≠ m.id) :
    ∃ s1, dispatch s m = some (s1, []) ∧
      s1.sr_games.len = s.sr_games.len + 1 ∧
      s1.sr_games.games = s.sr_games.games.set s.sr_games.len
        { ge_game_from_msg m with id := s.sr_games.len } ∧
      s1.sr_games.games[s.sr_games.len]?
        = some { ge_game_from_msg m with id := s.sr_games.len } ∧
      s1.sr_users = s.sr_users := by
  have hlt : s.sr_games.len < s.sr_games.games.length := by
    rw [hwf.1]
    exact hfree
  have hmod := succ_mod_size_games _ hwf hlt
  refine ⟨{ s with sr_games :=
      ⟨s.sr_games.games.set s.sr_games.len { ge_game_from_msg m with id := s.sr_games.len },
        s.sr_games.len + 1⟩ }, ?_, rfl, rfl, ?_, rfl⟩
  · rw [dispatch_select_opponent s m hk]
    simp only [case_select_opponent, hlt, if_true, hmod]
    rw [if_pos (Or.inl ⟨hc, hg⟩)]
  · simp only
    rw [List.getElem?_set_self hlt]

/-- C11 at a concrete input: after the two authentications of `scenario`,
session 2 sends a select_opponent whose record names session 1 as chooser and
as guesser. -/
theorem select_opponent_unauthorised_witness :
    ∃ s1, dispatch (state_after (scenario.take 2))
        (frame_of (game_frame 2 mk_select_opponent ⟨0, 1, 1, false, word_of apple⟩)) = some (s1, []) ∧
      s1.sr_games.len = (state_after (scenario.take 2)).sr_games.len + 1 ∧
      s1.sr_games.games = (state_after (scenario.take 2)).sr_games.games.set (state_after (scenario.take 2)).sr_games.len
        { ge_game_from_msg
            (frame_of (game_frame 2 mk_select_opponent ⟨0, 1, 1, false, word_of apple⟩)) with
          id := (state_after (scenario.take 2)).sr_games.len } ∧
      s1.sr_games.games[(state_after (scenario.take 2)).sr_games.len]?
        = some { ge_game_from_msg
            (frame_of (game_frame 2 mk_select_opponent ⟨0, 1, 1, false, word_of apple⟩)) with
          id := (state_after (scenario.take 2)).sr_games.len } ∧
      s1.sr_users = (state_after (scenario.take 2)).sr_users :=
  select_opponent_unauthorised (state_after (scenario.take 2))
    (frame_of (game_frame 2 mk_select_opponent ⟨0, 1, 1, false, word_of apple⟩))
    (by decide) (by decide) (by decide) (by decide) (by decide)

/-- C12. Hint forwarding: for a hint frame whose record names a guesser with a
slot in the user array, the server makes exactly one output call, a write of a
`hint` frame on the descriptor stored for the guesser, with the guesser's id in
the id field, the declared length `sizeof(ge_game)` and the record of the
received frame as payload (byte for byte the first `sizeof(ge_game)` bytes
received, when the flag byte is 0 or 1); the server state, both registries
included, is unchanged. -/
theorem hint_forwarded (s : server) (m : pl_message) (ug : user)
    (hk : m.kind = mk_hint) (hlen : m.raw_bytes.length = PL_RAW_BYTES_SIZE + 4)
    (hug : s.sr_users.users[size_pred (ge_game_from_msg m).guesser]? = some ug) :
    dispatch s m = some (s,
      [io_event.poll_msg_write ug.fd (ge_game_from_msg m).to_bytes
        (pl_message.lit (ge_game_from_msg m).guesser mk_hint sizeof_ge_game)
        PL_DEFAULT_TIMEOUT]) ∧
    payload (ge_game_from_msg m).to_bytes
        (pl_message.lit (ge_game_from_msg m).guesser mk_hint sizeof_ge_game)
      = (ge_game_from_msg m).to_bytes ∧
    ((∀ b ∈ m.raw_bytes, b < 256) → m.raw_bytes.getD 24 0 ≤ 1 →
      (ge_game_from_msg m).to_bytes = m.raw_bytes.take sizeof_ge_game) := by
  refine ⟨?_, ?_, ?_⟩
  · rw [dispatch_hint s m hk]
    simp only [case_hint, hug]
  · have hl := length_ge_game_to_bytes _ (length_word_from_msg m hlen)
    simp only [payload, pl_message.lit]
    rw [← hl, List.take_length]
  · intro hb hfin
    exact to_bytes_from_msg m hlen hb hfin

/-- C12 at a concrete input: session 1 sends a hint after the select_opponent of `scenario`. -/
theorem hint_forwarded_witness :
    dispatch (state_after (scenario.take 3))
        (frame_of (game_frame 1 mk_hint ⟨0, 2, 1, false, word_of apple⟩))
      = some ((state_after (scenario.take 3)),
        [io_event.poll_msg_write (user.mk 2 5 false).fd
          (ge_game_from_msg (frame_of (game_frame 1 mk_hint ⟨0, 2, 1, false, word_of apple⟩))).to_bytes
          (pl_message.lit (ge_game_from_msg
            (frame_of (game_frame 1 mk_hint ⟨0, 2, 1, false, word_of apple⟩))).guesser mk_hint
            sizeof_ge_game)
          PL_DEFAULT_TIMEOUT]) ∧
    payload (ge_game_from_msg (frame_of (game_frame 1 mk_hint ⟨0, 2, 1, false, word_of apple⟩))).to_bytes
        (pl_message.lit (ge_game_from_msg
          (frame_of (game_frame 1 mk_hint ⟨0, 2, 1, false, word_of apple⟩))).guesser mk_hint
          sizeof_ge_game)
      = (ge_game_from_msg (frame_of (game_frame 1 mk_hint ⟨0, 2, 1, false, word_of apple⟩))).to_bytes ∧
    ((∀ b ∈ (frame_of (game_frame 1 mk_hint ⟨0, 2, 1, false, word_of apple⟩)).raw_bytes, b < 256) →
      (frame_of (game_frame 1 mk_hint ⟨0, 2, 1, false, word_of apple⟩)).raw_bytes.getD 24 0 ≤ 1 →
      (ge_game_from_msg (frame_of (game_frame 1 mk_hint ⟨0, 2, 1, false, word_of apple⟩))).to_bytes
        = (frame_of (game_frame 1 mk_hint ⟨0, 2, 1, false, word_of apple⟩)).raw_bytes.take
          sizeof_ge_game) :=
  hint_forwarded (state_after (scenario.take 3))
    (frame_of (game_frame 1 mk_hint ⟨0, 2, 1, false, word_of apple⟩)) ⟨2, 5, false⟩
    (by decide) (by decide) (by decide)

/-- C13, the claim as stated fails. A read of 0 bytes leaves the zeroed buffer,
and `pl_msg_read` returns it: a message of kind `mk_exit` with id 0. The
dispatch loop hands it to the switch, which takes the exit case; with id 0 the
index `id - 1` is outside the user array. -/
theorem read_zero_bytes_dispatched :
    pl_msg_read (read_result.data []) = some (pl_message.lit 0 mk_exit 0) ∧
    read_step (state_after (scenario.take 2)) (read_result.data [])
      = case_exit (state_after (scenario.take 2)) (pl_message.lit 0 mk_exit 0) ∧
    read_step (state_after (scenario.take 2)) (read_result.data []) ≠ some ((state_after (scenario.take 2)), []) ∧
    size_pred (pl_message.lit 0 mk_exit 0).id = SIZE_MOD - 1 := by
  decide

/-- C13, amended. `pl_msg_read` returns `NULL` exactly when the read reports
an error, and then the dispatch loop does nothing: the state is unchanged and
no output call is made. A read of 0 bytes returns the zeroed buffer, a message
of kind `mk_exit` with id 0, which is handed to the switch. -/
theorem pl_msg_read_null_iff (s : server) (r : read_result) :
    (pl_msg_read r = none ↔ r = read_result.error) ∧
    read_step s read_result.error = some (s, []) ∧
    read_step s (read_result.data []) = dispatch s (pl_message.lit 0 mk_exit 0) := by
  refine ⟨?_, rfl, ?_⟩
  · cases r with
    | error => simp [pl_msg_read]
    | data bs => simp [pl_msg_read]
  · simp only [read_step, pl_msg_read_zero_bytes]

/-- C14. Capacity ceiling: in every state the loop of `main` reaches from the
empty state, at most `MAX_CLIENTS` sessions are stored; with `MAX_CLIENTS`
sessions stored the accept loop authenticates nobody, whatever connections wait
(it only rebuilds the poll set without the listening socket and leaves); and no
iteration of the loop, no accepted connection and no dispatched frame decreases
the session count or takes it above `MAX_CLIENTS`. -/
theorem session_count_bounded (pass : List Nat) (serverfd : Int) (envs : List iteration)
    (s : server) (e : List io_event)
    (h : main_loop pass (server_init serverfd) envs = some (s, e)) :
    s.sr_users.len ≤ MAX_CLIENTS ∧
    (∀ conns, MAX_CLIENTS ≤ s.sr_users.len →
      accept_loop pass s conns = (poll_new_users s true).map (fun s1 => (s1, []))) ∧
    (∀ env s1 e1, main_iteration pass s env = some (s1, e1) →
      s.sr_users.len ≤ s1.sr_users.len ∧ s1.sr_users.len ≤ MAX_CLIENTS) ∧
    (∀ inp s1 e1, step pass s inp = some (s1, e1) →
      s.sr_users.len ≤ s1.sr_users.len ∧ s1.sr_users.len ≤ MAX_CLIENTS) := by
  obtain ⟨hwf, _⟩ := main_loop_users pass envs _ s e (users_wf_init serverfd) h
  refine ⟨hwf.2.1, fun conns hfull => accept_loop_full pass conns s hfull, ?_, ?_⟩
  · intro env s1 e1 hit
    obtain ⟨w1, l1⟩ := main_iteration_users pass env s s1 e1 hwf hit
    exact ⟨l1, w1.2.1⟩
  · intro inp s1 e1 hstep
    obtain ⟨w1, _, c1⟩ := step_users pass s s1 inp e1 hwf hstep
    exact ⟨by rcases c1 with ⟨c, _⟩ | ⟨c, _⟩ <;> omega, w1.2.1⟩

/-- C14 at a concrete input: one iteration of the loop in which eleven
connections wait with the right password. -/
theorem session_count_bounded_witness :
    (state_after_loop [eleven_waiting]).sr_users.len ≤ MAX_CLIENTS ∧
    (∀ conns, MAX_CLIENTS ≤ (state_after_loop [eleven_waiting]).sr_users.len →
      accept_loop (secret ++ [0]) (state_after_loop [eleven_waiting]) conns
        = (poll_new_users (state_after_loop [eleven_waiting]) true).map (fun s1 => (s1, []))) ∧
    (∀ env s1 e1, main_iteration (secret ++ [0]) (state_after_loop [eleven_waiting]) env = some (s1, e1) →
      (state_after_loop [eleven_waiting]).sr_users.len ≤ s1.sr_users.len ∧ s1.sr_users.len ≤ MAX_CLIENTS) ∧
    (∀ inp s1 e1, step (secret ++ [0]) (state_after_loop [eleven_waiting]) inp = some (s1, e1) →
      (state_after_loop [eleven_waiting]).sr_users.len ≤ s1.sr_users.len ∧ s1.sr_users.len ≤ MAX_CLIENTS) :=
  session_count_bounded (secret ++ [0]) 3 [eleven_waiting] (state_after_loop [eleven_waiting])
    ((main_loop (secret ++ [0]) (server_init 3) [eleven_waiting]).getD (server_init 3, [])).2
    (by decide)

/-- C15, the claim as stated fails. Session 1 authenticates and sends a
select_opponent whose record names session 1 as chooser and as guesser: the
server stores the round in slot 0 and writes both `select_opponent` frames to
session 1. -/
theorem round_with_equal_peers :
    (run (secret ++ [0]) (server_init 3)
        [input.accepted 4 1 (password_answer secret),
          input.readable (game_frame 1 mk_select_opponent ⟨0, 1, 1, false, word_of apple⟩)]).map
      (fun p => (p.1.sr_games.len, p.1.sr_games.games[0]?))
      = some (1, some ⟨0, 1, 1, false, word_of apple⟩) := by
  decide

/-- C15, amended. The server stores the guesser and the chooser of a
select_opponent frame as they arrive and does not compare them. After every run
from the empty state in which no dispatched select_opponent frame names the
same id as guesser and as chooser, every stored round has a guesser different
from its chooser. The frames of the client are of this kind: when its
`select_opponent` returns, the chooser is the user's id and the guesser is an
announced id different from it. -/
theorem stored_rounds_distinct (pass : List Nat) (serverfd : Int) (inputs : List input)
    (s : server) (e : List io_event)
    (hd : ∀ i ∈ inputs, select_distinct i = true)
    (h : run pass (server_init serverfd) inputs = some (s, e)) :
    (∀ k, k < s.sr_games.len → ∀ g, s.sr_games.games[k]? = some g →
      g.guesser ≠ g.chooser) ∧
    (∀ uid opps typed c g, client_select_opponent uid opps typed = some (c, g) →
      c = uid ∧ g ≠ c ∧ g ∈ opps) := by
  refine ⟨run_rounds_distinct pass inputs _ s e (games_wf_init serverfd) ?_ hd h, ?_⟩
  · intro k hk
    exact absurd hk (Nat.not_lt_zero k)
  · intro uid opps typed c g hc
    obtain ⟨h1, h2, h3⟩ := client_select_opponent_distinct uid opps typed c g hc
    exact ⟨h1, by rw [h1]; exact h2, h3⟩

/-- C15 amended, at a concrete input: the run of `scenario`. -/
theorem stored_rounds_distinct_witness :
    (∀ k, k < (state_after scenario).sr_games.len →
      ∀ g, (state_after scenario).sr_games.games[k]? = some g → g.guesser ≠ g.chooser) ∧
    (∀ uid opps typed c g, client_select_opponent uid opps typed = some (c, g) →
      c = uid ∧ g ≠ c ∧ g ∈ opps) :=
  stored_rounds_distinct (secret ++ [0]) 3 scenario (state_after scenario)
    ((run (secret ++ [0]) (server_init 3) scenario).getD (server_init 3, [])).2
    (by decide) (by decide)

/-- C16, the claim as stated fails. In the run of `scenario` up to the
select_opponent, followed by a second select_opponent of session 1 with
guesser 2, the rounds in slots 0 and 1 are both not finished and both have
session 1 as chooser and session 2 as guesser. -/
theorem two_active_rounds :
    active_at (state_after (scenario.take 3 ++
          [input.readable (game_frame 1 mk_select_opponent ⟨0, 2, 1, false, word_of apple⟩)])).sr_games 1 0 ∧
    active_at (state_after (scenario.take 3 ++
          [input.readable (game_frame 1 mk_select_opponent ⟨0, 2, 1, false, word_of apple⟩)])).sr_games 1 1 ∧
    active_at (state_after (scenario.take 3 ++
          [input.readable (game_frame 1 mk_select_opponent ⟨0, 2, 1, false, word_of apple⟩)])).sr_games 2 0 ∧
    active_at (state_after (scenario.take 3 ++
          [input.readable (game_frame 1 mk_select_opponent ⟨0, 2, 1, false, word_of apple⟩)])).sr_games 2 1 := by
  decide

/-- C16, amended. The server stores every select_opponent frame without
looking whether its chooser or guesser is already in a round. After every run
from the empty state in which each dispatched select_opponent frame with a
clear finished flag names a chooser and a guesser for which `is_in_game` is
false when the frame arrives, every id is guesser or chooser of at most one
stored round that is not finished. -/
theorem one_active_round (pass : List Nat) (serverfd : Int) (inputs : List input)
    (s : server) (e : List io_event)
    (hf : fresh_run pass (server_init serverfd) inputs = true)
    (h : run pass (server_init serverfd) inputs = some (s, e)) :
    ∀ id j k, active_at s.sr_games id j → active_at s.sr_games id k → j = k := by
  refine run_one_active pass inputs _ s e (games_wf_init serverfd) ?_ hf h
  intro id j k hj _
  exact absurd hj.1 (Nat.not_lt_zero j)

/-- C16 amended, at a concrete input: the run of `scenario`. -/
theorem one_active_round_witness :
    fresh_run (secret ++ [0]) (server_init 3) scenario = true ∧
    ∀ id j k, active_at (state_after scenario).sr_games id j →
      active_at (state_after scenario).sr_games id k → j = k :=
  ⟨by decide,
    one_active_round (secret ++ [0]) 3 scenario (state_after scenario)
      ((run (secret ++ [0]) (server_init 3) scenario).getD (server_init 3, [])).2
      (by decide) (by decide)⟩

/-- C17. `find_game` specification: `find_game(id)` returns the stored round
with the smallest index among those that are not finished and have `id` as
guesser or chooser; it returns `NULL` exactly when no stored round is both not
finished and has `id` as guesser or chooser; and `is_in_game(id)` is true
exactly when there is such a round. -/
theorem find_game_spec (s : server) (id : Nat) :
    (∀ k, find_game s.sr_games id = some k ↔
      active_at s.sr_games id k ∧ ∀ j, j < k → ¬active_at s.sr_games id j) ∧
    (find_game s.sr_games id = none ↔ ∀ k, ¬active_at s.sr_games id k) ∧
    (is_in_game s id = true ↔ ∃ k, active_at s.sr_games id k) := by
  refine ⟨fun k => find_game_some_iff _ _ k, find_game_none_iff _ _, ?_⟩
  constructor
  · intro hin
    by_contra hno
    have hall : ∀ k, ¬active_at s.sr_games id k := fun k hk => hno ⟨k, hk⟩
    rw [(is_in_game_false_iff s id).mpr hall] at hin
    exact absurd hin (by simp)
  · rintro ⟨k, hk⟩
    cases hin : is_in_game s id with
    | true => rfl
    | false => exact absurd hk ((is_in_game_false_iff s id).mp hin k)

/-- C18. Guess leaves the state untouched: whenever the dispatch of a guess
frame is defined, the state after it is the state before it, so every stored
round keeps its id, guesser, chooser, word and finished flag (a correct guess
does not finish the round), the round count is unchanged, and every session
keeps its id, descriptor and finished flag. The dispatch is defined when the
record names a slot of the round array and a guesser and a chooser with slots
in the user array, and both words are terminated strings. -/
theorem guess_state_unchanged (s : server) (m : pl_message) (hk : m.kind = mk_guess) :
    (∀ s1 e, dispatch s m = some (s1, e) → s1 = s) ∧
    (∀ r ug uc, s.sr_games.games[(ge_game_from_msg m).id]? = some r →
      s.sr_users.users[size_pred (ge_game_from_msg m).guesser]? = some ug →
      s.sr_users.users[size_pred (ge_game_from_msg m).chooser]? = some uc →
      0 ∈ (ge_game_from_msg m).word → 0 ∈ r.word →
      ∃ e, dispatch s m = some (s, e)) := by
  rw [dispatch_guess s m hk]
  constructor
  · intro s1 e h
    exact (case_guess_result s s1 m e h).1
  · intro r ug uc hr hug huc hz hzr
    obtain ⟨c, hc, _⟩ := strcmp_terminated _ _ hz hzr
    by_cases hc0 : c = 0
    · simp only [case_guess, hr, hc, hc0, ne_eq, not_true_eq_false, if_false,
        send_game_msg_eq s _ _ _ _ ug uc hug huc, Option.map_some']
      exact ⟨_, rfl⟩
    · simp only [case_guess, hr, hc, ne_eq, hc0, not_false_eq_true, if_true,
        send_game_msg_eq s _ _ _ _ ug uc hug huc, Option.map_some']
      exact ⟨_, rfl⟩

/-- C18 at a concrete input: session 2 guesses `"apple"` in the run of `scenario`. -/
theorem guess_state_unchanged_witness :
    (∀ s1 e, dispatch (state_after (scenario.take 3))
        (frame_of (game_frame 2 mk_guess ⟨0, 2, 1, false, word_of apple⟩)) = some (s1, e) →
      s1 = (state_after (scenario.take 3))) ∧
    (∀ r ug uc,
      (state_after (scenario.take 3)).sr_games.games[(ge_game_from_msg
        (frame_of (game_frame 2 mk_guess ⟨0, 2, 1, false, word_of apple⟩))).id]? = some r →
      (state_after (scenario.take 3)).sr_users.users[size_pred (ge_game_from_msg
        (frame_of (game_frame 2 mk_guess ⟨0, 2, 1, false, word_of apple⟩))).guesser]? = some ug →
      (state_after (scenario.take 3)).sr_users.users[size_pred (ge_game_from_msg
        (frame_of (game_frame 2 mk_guess ⟨0, 2, 1, false, word_of apple⟩))).chooser]? = some uc →
      0 ∈ (ge_game_from_msg (frame_of (game_frame 2 mk_guess ⟨0, 2, 1, false, word_of apple⟩))).word →
      0 ∈ r.word →
      ∃ e, dispatch (state_after (scenario.take 3))
        (frame_of (game_frame 2 mk_guess ⟨0, 2, 1, false, word_of apple⟩)) = some ((state_after (scenario.take 3)), e)) :=
  guess_state_unchanged (state_after (scenario.take 3))
    (frame_of (game_frame 2 mk_guess ⟨0, 2, 1, false, word_of apple⟩)) (by decide)

/-- C19, the code at the failing input. After ten sessions have authenticated
the registry is full, the accept loop has rebuilt the poll set without the
listening socket, and the descriptor of session 1 is in `sr_pfds.pfds[0]`. In
the next iteration, with that descriptor reported ready, the loop makes no
output call and changes no registry, whatever a read on it would return: the
dispatch loop starts at index 1 and never reads it. With the descriptor of
session 2, at index 1, reported ready and an exit frame waiting, the frame is
read and dispatched. -/
theorem first_session_not_dispatched :
    full_state.sr_users.len = MAX_CLIENTS ∧
    full_state.sr_pfds.len = 10 ∧
    full_state.sr_pfds.pfds[0]? = some ⟨4, POLLIN, 0⟩ ∧
    full_state.sr_users.users[0]? = some ⟨1, 4, false⟩ ∧
    (∀ r : read_result,
      (main_iteration (secret ++ [0]) full_state ⟨[POLLIN], [], [r]⟩).map
        (fun p => (p.2, p.1.sr_users, p.1.sr_games))
      = some ([], full_state.sr_users, full_state.sr_games)) ∧
    (main_iteration (secret ++ [0]) full_state
        ⟨[0, POLLIN], [], [read_result.error, delivered [0] (pl_message.lit 2 mk_exit 0)]⟩).map
      (fun p => (p.2, (p.1.sr_users.users[1]?).map (fun u => u.finished_game)))
      = some ([io_event.close 5], some true) := by
  refine ⟨by decide, by decide, by decide, by decide, fun r => rfl, by decide⟩

/-- C20, the code at the failing input. After two sessions have authenticated
and session 1 has sent ten select_opponent frames, ten rounds are stored and
the round array of `MAX_CLIENTS` slots is full. The handler has no check of the
count: for an eleventh frame the slot it writes, `games[10]`, is outside the
array, so the step is undefined. -/
theorem round_registry_overflow :
    (run (secret ++ [0]) (server_init 3)
        (scenario.take 2 ++ List.replicate 10 select_1_2)).map
      (fun p => (p.1.sr_games.len, p.1.sr_games.games.length)) = some (10, MAX_CLIENTS) ∧
    step (secret ++ [0]) (state_after (scenario.take 2 ++ List.replicate 10 select_1_2))
      select_1_2 = none ∧
    run (secret ++ [0]) (server_init 3)
      (scenario.take 2 ++ List.replicate 11 select_1_2) = none := by
  decide

/-- C21, the code at failing inputs. The handlers use the ids of a frame as
array indices without any check: the exit case is undefined exactly when
`id - 1` is outside the user array, the hint case exactly when `guesser - 1`
is. In the state of `scenario` after the select_opponent (two sessions, one
round, arrays of `MAX_CLIENTS` slots):
(a) a read of 0 bytes gives an exit frame with id 0, and `users[0 - 1]`, with
the index wrapped to `SIZE_MAX`, is outside the array;
(b) an exit frame with id 11 reads `users[10]`, outside the array;
(c) an exit frame with id 5 closes the descriptor 0 of the unused slot 4 and
flags that slot finished;
(d) a hint frame with guesser 0 reads `users[0 - 1]`, and one with guesser 7 is
written to the descriptor 0 of the unused slot 6;
(e) a guess frame with record id 10 reads `games[10]`, outside the array, and
one with record id 5 is compared with the unused round slot 5;
(f) a guess frame with chooser 0 and a select_opponent frame with guesser 0
read `users[0 - 1]`. -/
theorem frame_lookups_out_of_range :
    (∀ (s : server) (m : pl_message), m.kind = mk_exit →
      (dispatch s m = none ↔ s.sr_users.users.length ≤ size_pred m.id)) ∧
    (∀ (s : server) (m : pl_message), m.kind = mk_hint →
      (dispatch s m = none ↔
        s.sr_users.users.length ≤ size_pred (ge_game_from_msg m).guesser)) ∧
    ((state_after (scenario.take 3)).sr_users.len = 2 ∧ (state_after (scenario.take 3)).sr_users.users.length = MAX_CLIENTS ∧
      (state_after (scenario.take 3)).sr_games.len = 1 ∧ (state_after (scenario.take 3)).sr_games.games.length = MAX_CLIENTS) ∧
    (pl_msg_read (read_result.data []) = some (pl_message.lit 0 mk_exit 0) ∧
      size_pred 0 = SIZE_MOD - 1 ∧
      (state_after (scenario.take 3)).sr_users.users[size_pred 0]? = none ∧
      read_step (state_after (scenario.take 3)) (read_result.data []) = none) ∧
    (size_pred 11 = 10 ∧
      read_step (state_after (scenario.take 3)) (delivered [0] (pl_message.lit 11 mk_exit 0)) = none) ∧
    ((read_step (state_after (scenario.take 3)) (delivered [0] (pl_message.lit 5 mk_exit 0))).map
      (fun p => (p.2, p.1.sr_users.users[4]?, p.1.sr_users.len))
      = some ([io_event.close 0], some ⟨0, 0, true⟩, 2)) ∧
    (read_step (state_after (scenario.take 3)) (game_frame 1 mk_hint ⟨0, 0, 1, false, word_of apple⟩) = none ∧
      (read_step (state_after (scenario.take 3)) (game_frame 1 mk_hint ⟨0, 7, 1, false, word_of apple⟩)).map
        (fun p => p.2)
        = some [io_event.poll_msg_write 0 (ge_game.to_bytes ⟨0, 7, 1, false, word_of apple⟩)
          (pl_message.lit 7 mk_hint sizeof_ge_game) PL_DEFAULT_TIMEOUT]) ∧
    ((state_after (scenario.take 3)).sr_games.games[10]? = none ∧
      read_step (state_after (scenario.take 3)) (game_frame 2 mk_guess ⟨10, 2, 1, false, word_of apple⟩) = none ∧
      (state_after (scenario.take 3)).sr_games.games[5]? = some ⟨0, 0, 0, false, zero_word⟩ ∧
      (read_step (state_after (scenario.take 3)) (game_frame 2 mk_guess ⟨5, 2, 1, false, word_of []⟩)).map
        (fun p => p.2)
        = some [io_event.poll_msg_write 5 [] (pl_message.lit 2 mk_correct_guess 0)
            PL_DEFAULT_TIMEOUT,
          io_event.poll_msg_write 4 [] (pl_message.lit 1 mk_correct_guess 0)
            PL_DEFAULT_TIMEOUT]) ∧
    (read_step (state_after (scenario.take 3)) (game_frame 2 mk_guess ⟨0, 2, 0, false, word_of apple⟩) = none ∧
      read_step (state_after (scenario.take 3))
        (game_frame 1 mk_select_opponent ⟨0, 0, 1, false, word_of apple⟩) = none) := by
  refine ⟨?_, ?_, by decide, by decide, by decide, by decide, by decide, by decide, by decide⟩
  · intro s m hk
    rw [dispatch_exit s m hk]
    exact case_exit_none_iff s m
  · intro s m hk
    rw [dispatch_hint s m hk]
    exact case_hint_none_iff s m

end Dead
